import Mathlib

/-!
# Verification of the pipe-based prime sieve (`user/primes.c`)

This development gives a shallow embedding of the prime-sieve pipeline of
`user/primes.c` and proves the specified properties about it.

The program builds a chain of processes connected by pipes.  `main` prints
`prime 2`, then feeds every candidate `i` in `[3, MAX_PRIMES]` not divisible
by `START_PRIME = 2` into a lazily created cursor (`deliver_prime`): the
first pushed value allocates a pipe, forks a Stage whose prime is that
value, and every later push is a plain `write`.  Each Stage does the same
with its own downstream cursor after filtering multiples of its prime.

Two embeddings are used, both translated from the source:

* a *functional* model (`chainOut`, `chainStages`, `mainOut`) capturing the
  values each stage receives, filters and the primes printed along the
  chain, in the causal order the chain produces them;
* an *operational trace* model (`deliver_prime`, `run_stage_loop`,
  `drive_loop`, `stage_events`, `main_events`) recording, per process, the
  sequence of observable actions (prints, pipe creation, forks, `write`s,
  `read`s, `close`s, `wait`, `exit`), with pipe file descriptors modelled
  as integers and the invalid sentinel `PIPE_INVALID = -1` kept explicit.

Cross-process temporal ordering (shutdown order) is expressed through a
happens-before relation whose generators are program order inside each
trace plus the two kernel-level facts the program relies on: a reader sees
end-of-file only after the last copy of the write end is closed, and
`wait` returns only after the child has exited.
-/

namespace PrimesPipe

/-- `START_PRIME` from the source: the first prime, printed directly. -/
def START_PRIME : Nat := 2

/-- `MAX_PRIMES` from the source: the upper bound of the candidate range. -/
def MAX_PRIMES : Nat := 35

/-- One filtering step of a Stage with prime `p`: the loop body keeps the
values `v` read upstream with `v % p != 0` (line `if (received_number % n
== 0) continue;`), in order. -/
def stageFilter (p : Nat) (xs : List Nat) : List Nat :=
  xs.filter (fun v => decide (v % p ≠ 0))

/-- Fuel-driven recursion computing the list of primes printed by the chain
rooted at a stage with prime `p` and upstream value sequence `xs`: the
stage prints `p` (`print_prime(n)` at the top of the child), filters `xs`
by `p`, and the first survivor becomes the next stage's prime with the
remaining survivors as its input.  The fuel is only a termination device;
`chainOut` instantiates it with `xs.length`, which always suffices. -/
def chainOutF : Nat → Nat → List Nat → List Nat
  | 0, p, _ => [p]
  | fuel + 1, p, xs =>
    match stageFilter p xs with
    | [] => [p]
    | q :: rest => p :: chainOutF fuel q rest

/-- Primes printed by the chain rooted at `(p, xs)`. -/
def chainOut (p : Nat) (xs : List Nat) : List Nat :=
  chainOutF xs.length p xs

/-- Fuel-driven recursion computing the list of stages of the chain rooted
at `(p, xs)`: each entry is a pair (stage's prime, sequence of values the
stage reads from its upstream pipe).  Entry `0` is the root itself. -/
def stagesF : Nat → Nat → List Nat → List (Nat × List Nat)
  | 0, p, xs => [(p, xs)]
  | fuel + 1, p, xs =>
    (p, xs) ::
      (match stageFilter p xs with
       | [] => []
       | q :: rest => stagesF fuel q rest)

/-- The stages of the chain rooted at `(p, xs)`. -/
def chainStages (p : Nat) (xs : List Nat) : List (Nat × List Nat) :=
  stagesF xs.length p xs

/-- The candidate sequence fed by `main`'s `for` loop before its own
filter: `i` from `START_PRIME + 1` to `MAX_PRIMES` (generalised to an
upper bound `N`). -/
def candidateRange (N : Nat) : List Nat :=
  List.range' (START_PRIME + 1) (N - START_PRIME)

/-- The full printed output of `main` with upper bound `N` (the source
fixes `N = MAX_PRIMES`): `print_prime(START_PRIME)` first, then the loop
skips multiples of `START_PRIME` and pushes the rest into the top-level
cursor; the first push spawns the first Stage with that value as prime,
later pushes feed it. -/
def mainOut (N : Nat) : List Nat :=
  START_PRIME ::
    (match stageFilter START_PRIME (candidateRange N) with
     | [] => []
     | q :: rest => chainOut q rest)

/-- The ascending list of primes `q` with `p ≤ q ≤ B` (reference ground
truth used to state correctness). -/
def primesBetween (p B : Nat) : List Nat :=
  (List.range' p (B + 1 - p)).filter (fun q => decide (Nat.Prime q))

/-! ## Basic lemmas about the functional model -/

theorem stageFilter_length_le (p : Nat) (xs : List Nat) :
    (stageFilter p xs).length ≤ xs.length :=
  List.length_filter_le _ xs

theorem mem_stageFilter {p : Nat} {xs : List Nat} {v : Nat} :
    v ∈ stageFilter p xs ↔ v ∈ xs ∧ ¬ v % p = 0 := by
  simp [stageFilter]

/-- Two sufficient fuels give the same chain output. -/
theorem chainOutF_fuel_eq :
    ∀ (fuel fuel2 : Nat) (p : Nat) (xs : List Nat),
      xs.length ≤ fuel → xs.length ≤ fuel2 →
      chainOutF fuel p xs = chainOutF fuel2 p xs := by
  intro fuel
  induction fuel with
  | zero =>
    intro fuel2 p xs h h2
    have hx : xs = [] := List.length_eq_zero.mp (Nat.le_zero.mp h)
    subst hx
    cases fuel2 <;> rfl
  | succ n ih =>
    intro fuel2 p xs h h2
    cases fuel2 with
    | zero =>
      have hx : xs = [] := List.length_eq_zero.mp (Nat.le_zero.mp h2)
      subst hx; rfl
    | succ m =>
      show (match stageFilter p xs with
            | [] => [p]
            | q :: rest => p :: chainOutF n q rest) =
          (match stageFilter p xs with
            | [] => [p]
            | q :: rest => p :: chainOutF m q rest)
      cases hf : stageFilter p xs with
      | nil => rfl
      | cons q rest =>
        have hlt : rest.length + 1 ≤ xs.length := by
          have := stageFilter_length_le p xs
          rw [hf] at this
          simpa using this
        show p :: chainOutF n q rest = p :: chainOutF m q rest
        rw [ih m q rest (by omega) (by omega)]

/-- The fuel argument is irrelevant as soon as it dominates the input
length. -/
theorem chainOutF_congr (fuel : Nat) (p : Nat) (xs : List Nat)
    (h : xs.length ≤ fuel) : chainOutF fuel p xs = chainOut p xs :=
  chainOutF_fuel_eq fuel xs.length p xs h (Nat.le_refl _)

/-- Unfolding: a stage whose input has no survivor prints only its own
prime (its cursor is never initialised, so no further stage exists). -/
theorem chainOut_nil {p : Nat} {xs : List Nat}
    (h : stageFilter p xs = []) : chainOut p xs = [p] := by
  cases hxs : xs with
  | nil => rfl
  | cons a as =>
    subst hxs
    show chainOutF (a :: as).length p (a :: as) = [p]
    rw [List.length_cons]
    show (match stageFilter p (a :: as) with
          | [] => [p]
          | q :: rest => p :: chainOutF as.length q rest) = [p]
    rw [h]

/-- Unfolding: with survivors `q :: rest`, the stage prints its prime and
the chain continues at the stage spawned with prime `q` and input `rest`. -/
theorem chainOut_cons {p q : Nat} {xs rest : List Nat}
    (h : stageFilter p xs = q :: rest) :
    chainOut p xs = p :: chainOut q rest := by
  cases hxs : xs with
  | nil =>
    subst hxs
    simp [stageFilter] at h
  | cons a as =>
    subst hxs
    show chainOutF (a :: as).length p (a :: as) = p :: chainOut q rest
    rw [List.length_cons]
    show (match stageFilter p (a :: as) with
          | [] => [p]
          | r :: rs => p :: chainOutF as.length r rs) = p :: chainOut q rest
    rw [h]
    have hlt : rest.length + 1 ≤ (a :: as).length := by
      have := stageFilter_length_le p (a :: as)
      rw [h] at this
      simpa using this
    show p :: chainOutF as.length q rest = p :: chainOut q rest
    rw [chainOutF_congr as.length q rest (by simpa using Nat.lt_succ_iff.mp hlt)]

/-- `main` prints `START_PRIME` first and then behaves exactly like a
stage with prime `START_PRIME` fed the raw candidate range. -/
theorem mainOut_eq_chainOut (N : Nat) :
    mainOut N = chainOut START_PRIME (candidateRange N) := by
  unfold mainOut
  cases hf : stageFilter START_PRIME (candidateRange N) with
  | nil => rw [chainOut_nil hf]
  | cons q rest => rw [chainOut_cons hf]

/-! ## Sieve correctness

The invariant carried down the chain: a stage with prime `p` receives
exactly the values `m` in `(p, B]` not divisible by any prime smaller
than `p`, in ascending order.  Its filter then removes the multiples of
`p` itself, so the first survivor is the next prime. -/

/-- Characterisation of the survivors of the `p`-stage when the invariant
holds for its input. -/
theorem stageFilter_char {p B : Nat} {xs : List Nat} (hP : Nat.Prime p)
    (hmem : ∀ m, m ∈ xs ↔ p < m ∧ m ≤ B ∧
      ∀ r, Nat.Prime r → r < p → ¬ r ∣ m) :
    ∀ m, m ∈ stageFilter p xs ↔ p < m ∧ m ≤ B ∧
      ∀ r, Nat.Prime r → r ≤ p → ¬ r ∣ m := by
  intro m
  rw [mem_stageFilter, hmem m]
  constructor
  · rintro ⟨⟨h1, h2, h3⟩, h4⟩
    refine ⟨h1, h2, fun r hr hrp hdvd => ?_⟩
    rcases Nat.lt_or_ge r p with hlt | hge
    · exact h3 r hr hlt hdvd
    · have hrp2 : r = p := Nat.le_antisymm hrp hge
      subst hrp2
      exact h4 (Nat.dvd_iff_mod_eq_zero.mp hdvd)
  · rintro ⟨h1, h2, h3⟩
    refine ⟨⟨h1, h2, fun r hr hrlt => h3 r hr (Nat.le_of_lt hrlt)⟩, ?_⟩
    intro hmod
    exact h3 p hP (Nat.le_refl p) (Nat.dvd_iff_mod_eq_zero.mpr hmod)

/-- A prime has no prime divisor strictly below itself. -/
theorem prime_no_small_prime_dvd {q r : Nat} (hq : Nat.Prime q)
    (hr : Nat.Prime r) (hdvd : r ∣ q) : r = q :=
  (Nat.prime_dvd_prime_iff_eq hr hq).mp hdvd

/-- If there is no prime in `(p, B]`, the primes of `[p, B]` are just
`p`. -/
theorem primesBetween_single {p B : Nat} (hp : Nat.Prime p) (hpB : p ≤ B)
    (hno : ∀ q, p < q → q ≤ B → ¬ Nat.Prime q) :
    primesBetween p B = [p] := by
  unfold primesBetween
  have e1 : B + 1 - p = (B - p) + 1 := by omega
  rw [e1, List.range'_succ]
  rw [List.filter_cons_of_pos (by simpa using hp)]
  have : (List.range' (p + 1) (B - p)).filter (fun q => decide (Nat.Prime q)) = [] := by
    rw [List.filter_eq_nil_iff]
    intro a ha
    rw [List.mem_range'_1] at ha
    simp only [decide_eq_true_eq]
    exact hno a (by omega) (by omega)
  rw [this]

/-- If `q` is the least prime above the prime `p` (and `q ≤ B`), the
primes of `[p, B]` are `p` followed by the primes of `[q, B]`. -/
theorem primesBetween_step {p q B : Nat} (hp : Nat.Prime p) (hpq : p < q)
    (hqB : q ≤ B) (hno : ∀ s, p < s → s < q → ¬ Nat.Prime s) :
    primesBetween p B = p :: primesBetween q B := by
  unfold primesBetween
  have e1 : B + 1 - p = (B + 1 - q) + (q - p) := by omega
  rw [e1, ← List.range'_append p (q - p) (B + 1 - q) 1]
  rw [show p + 1 * (q - p) = q from by omega]
  rw [List.filter_append]
  have e2 : q - p = (q - p - 1) + 1 := by omega
  rw [e2, List.range'_succ]
  rw [List.filter_cons_of_pos (by simpa using hp)]
  have : (List.range' (p + 1) (q - p - 1)).filter (fun s => decide (Nat.Prime s)) = [] := by
    rw [List.filter_eq_nil_iff]
    intro a ha
    rw [List.mem_range'_1] at ha
    simp only [decide_eq_true_eq]
    exact hno a (by omega) (by omega)
  rw [this]
  rfl

/-- Sieve invariant, main induction: a chain whose root receives exactly
the values of `(p, B]` with no prime factor below its prime `p`, in
ascending order, prints exactly the primes of `[p, B]` in ascending
order.  No stage performs a primality test; primality of every printed
value is forced by the filters above it. -/
theorem chainOut_sieve :
    ∀ (n B p : Nat) (xs : List Nat), xs.length ≤ n →
      Nat.Prime p → p ≤ B →
      List.Pairwise (· < ·) xs →
      (∀ m, m ∈ xs ↔ p < m ∧ m ≤ B ∧ ∀ r, Nat.Prime r → r < p → ¬ r ∣ m) →
      chainOut p xs = primesBetween p B := by
  intro n
  induction n with
  | zero =>
    intro B p xs hlen hp hpB _ hmem
    have hx : xs = [] := List.length_eq_zero.mp (Nat.le_zero.mp hlen)
    subst hx
    rw [chainOut_nil (by rfl)]
    refine (primesBetween_single hp hpB ?_).symm
    intro q h1 h2 hq
    have : q ∈ ([] : List Nat) := by
      rw [hmem q]
      exact ⟨h1, h2, fun r hr _ hdvd =>
        by have := prime_no_small_prime_dvd hq hr hdvd; omega⟩
    simp at this
  | succ n ih =>
    intro B p xs hlen hp hpB hsorted hmem
    have hys := stageFilter_char hp hmem
    cases hf : stageFilter p xs with
    | nil =>
      rw [chainOut_nil hf]
      refine (primesBetween_single hp hpB ?_).symm
      intro q h1 h2 hq
      have : q ∈ stageFilter p xs := by
        rw [hys q]
        exact ⟨h1, h2, fun r hr _ hdvd =>
          by have := prime_no_small_prime_dvd hq hr hdvd; omega⟩
      rw [hf] at this
      simp at this
    | cons q rest =>
      have hys_sorted : List.Pairwise (· < ·) (q :: rest) := by
        rw [← hf]
        exact List.Pairwise.filter _ hsorted
      have hq_mem : q ∈ stageFilter p xs := by rw [hf]; exact List.mem_cons_self q rest
      have hq_char := (hys q).mp hq_mem
      obtain ⟨hpq, hqB, hqnd⟩ := hq_char
      -- head of the survivors is minimal among them
      have hmin : ∀ m, m ∈ stageFilter p xs → q ≤ m := by
        intro m hm
        rw [hf] at hm
        rcases List.mem_cons.mp hm with h | h
        · omega
        · have := (List.pairwise_cons.mp hys_sorted).1 m h
          omega
      -- the head survivor is prime
      have hqprime : Nat.Prime q := by
        by_contra hnp
        have hq2 : 2 ≤ q := by
          have := hp.two_le
          omega
        have hq1 : q ≠ 1 := by omega
        set r := q.minFac with hr_def
        have hr : Nat.Prime r := Nat.minFac_prime hq1
        have hrd : r ∣ q := Nat.minFac_dvd q
        have hrq : r ≠ q := by
          intro he
          exact hnp (Nat.prime_def_minFac.mpr ⟨hq2, he⟩)
        have hrle : r ≤ q := Nat.le_of_dvd (by omega) hrd
        have hrlt : r < q := by omega
        have hpr : p < r := by
          rcases Nat.lt_or_ge p r with h | h
          · exact h
          · exact absurd hrd (hqnd r hr h)
        have : r ∈ stageFilter p xs := by
          rw [hys r]
          refine ⟨hpr, by omega, fun s hs hsp hdvd => ?_⟩
          have := prime_no_small_prime_dvd hr hs hdvd
          omega
        have := hmin r this
        omega
      -- there is no prime strictly between p and q
      have hnogap : ∀ s, p < s → s < q → ¬ Nat.Prime s := by
        intro s h1 h2 hs
        have : s ∈ stageFilter p xs := by
          rw [hys s]
          refine ⟨h1, by omega, fun r hr hrp hdvd => ?_⟩
          have := prime_no_small_prime_dvd hs hr hdvd
          omega
        have := hmin s this
        omega
      -- the tail survivors satisfy the invariant for the next stage
      have hrest_mem : ∀ m, m ∈ rest ↔ q < m ∧ m ≤ B ∧
          ∀ r, Nat.Prime r → r < q → ¬ r ∣ m := by
        intro m
        constructor
        · intro hm
          have hm_ys : m ∈ stageFilter p xs := by
            rw [hf]; exact List.mem_cons_of_mem q hm
          have hm_char := (hys m).mp hm_ys
          obtain ⟨h1, h2, h3⟩ := hm_char
          have hqm : q < m := (List.pairwise_cons.mp hys_sorted).1 m hm
          refine ⟨hqm, h2, fun r hr hrq hdvd => ?_⟩
          rcases Nat.lt_or_ge p r with hpr | hpr
          · exact hnogap r hpr hrq hr
          · exact h3 r hr hpr hdvd
        · rintro ⟨h1, h2, h3⟩
          have : m ∈ stageFilter p xs := by
            rw [hys m]
            exact ⟨by omega, h2, fun r hr hrp hdvd => h3 r hr (by omega) hdvd⟩
          rw [hf] at this
          rcases List.mem_cons.mp this with h | h
          · omega
          · exact h
      have hrest_sorted : List.Pairwise (· < ·) rest :=
        (List.pairwise_cons.mp hys_sorted).2
      have hrest_len : rest.length ≤ n := by
        have h1 : rest.length + 1 ≤ xs.length := by
          have := stageFilter_length_le p xs
          rw [hf] at this
          simpa using this
        omega
      rw [chainOut_cons hf,
        ih B q rest hrest_len hqprime hqB hrest_sorted hrest_mem,
        primesBetween_step hp hpq hqB hnogap]

/-- The candidates fed by the driver's loop are exactly the integers of
`(2, N]`. -/
theorem candidateRange_mem (N : Nat) (m : Nat) :
    m ∈ candidateRange N ↔ 2 < m ∧ m ≤ N := by
  unfold candidateRange
  rw [List.mem_range'_1]
  show 2 + 1 ≤ m ∧ m < 2 + 1 + (N - 2) ↔ 2 < m ∧ m ≤ N
  omega

/-- The driver's output is the ascending list of primes up to `N`. -/
theorem mainOut_eq_primesBetween (N : Nat) (h : 2 ≤ N) :
    mainOut N = primesBetween 2 N := by
  rw [mainOut_eq_chainOut]
  show chainOut 2 (candidateRange N) = primesBetween 2 N
  apply chainOut_sieve (candidateRange N).length N 2 (candidateRange N)
    (Nat.le_refl _) Nat.prime_two h
  · unfold candidateRange
    exact List.pairwise_lt_range' _ _
  · intro m
    rw [candidateRange_mem N m]
    constructor
    · intro hm
      exact ⟨hm.1, hm.2, fun r hr hrlt _ => absurd hr.two_le (by omega)⟩
    · rintro ⟨h1, h2, _⟩
      exact ⟨h1, h2⟩

theorem primesBetween_mem {p B q : Nat} :
    q ∈ primesBetween p B ↔ Nat.Prime q ∧ p ≤ q ∧ q ≤ B := by
  unfold primesBetween
  rw [List.mem_filter, List.mem_range'_1]
  simp only [decide_eq_true_eq]
  constructor
  · rintro ⟨⟨h1, h2⟩, h3⟩
    exact ⟨h3, h1, by omega⟩
  · rintro ⟨h1, h2, h3⟩
    exact ⟨⟨h2, by omega⟩, h1⟩

theorem primesBetween_sorted (p B : Nat) :
    List.Pairwise (· < ·) (primesBetween p B) :=
  List.Pairwise.filter _ (List.pairwise_lt_range' _ _)

/-- C1: for every candidate range `[2, N]` the driver prints exactly one
line for each prime `p ≤ N` (membership iff primality), in strictly
ascending order (hence no duplicates, no composites); for the source's
fixed bound `MAX_PRIMES = 35` the output is the 11 primes
2, 3, 5, 7, 11, 13, 17, 19, 23, 29, 31. -/
theorem driver_output_correct (N : Nat) (h : 2 ≤ N) :
    (∀ q, q ∈ mainOut N ↔ Nat.Prime q ∧ q ≤ N) ∧
    List.Pairwise (· < ·) (mainOut N) ∧
    mainOut MAX_PRIMES = [2, 3, 5, 7, 11, 13, 17, 19, 23, 29, 31] := by
  refine ⟨?_, ?_, by decide⟩
  · intro q
    rw [mainOut_eq_primesBetween N h, primesBetween_mem]
    constructor
    · rintro ⟨h1, _, h3⟩
      exact ⟨h1, h3⟩
    · rintro ⟨h1, h2⟩
      exact ⟨h1, h1.two_le, h2⟩
  · rw [mainOut_eq_primesBetween N h]
    exact primesBetween_sorted 2 N

/-- Witness for C1 at the source's own bound `N = 35`. -/
theorem driver_output_correct_witness :
    2 ≤ 35 ∧ ((∀ q, q ∈ mainOut 35 ↔ Nat.Prime q ∧ q ≤ 35) ∧
      List.Pairwise (· < ·) (mainOut 35) ∧
      mainOut MAX_PRIMES = [2, 3, 5, 7, 11, 13, 17, 19, 23, 29, 31]) :=
  ⟨by decide, driver_output_correct 35 (by decide)⟩

/-! ## The chain of stages -/

/-- Two sufficient fuels give the same stage list. -/
theorem stagesF_fuel_eq :
    ∀ (fuel fuel2 : Nat) (p : Nat) (xs : List Nat),
      xs.length ≤ fuel → xs.length ≤ fuel2 →
      stagesF fuel p xs = stagesF fuel2 p xs := by
  intro fuel
  induction fuel with
  | zero =>
    intro fuel2 p xs h h2
    have hx : xs = [] := List.length_eq_zero.mp (Nat.le_zero.mp h)
    subst hx
    cases fuel2 <;> rfl
  | succ n ih =>
    intro fuel2 p xs h h2
    cases fuel2 with
    | zero =>
      have hx : xs = [] := List.length_eq_zero.mp (Nat.le_zero.mp h2)
      subst hx; rfl
    | succ m =>
      show ((p, xs) :: match stageFilter p xs with
            | [] => []
            | q :: rest => stagesF n q rest) =
          ((p, xs) :: match stageFilter p xs with
            | [] => []
            | q :: rest => stagesF m q rest)
      cases hf : stageFilter p xs with
      | nil => rfl
      | cons q rest =>
        have hlt : rest.length + 1 ≤ xs.length := by
          have := stageFilter_length_le p xs
          rw [hf] at this
          simpa using this
        show (p, xs) :: stagesF n q rest = (p, xs) :: stagesF m q rest
        rw [ih m q rest (by omega) (by omega)]

theorem stagesF_congr (fuel : Nat) (p : Nat) (xs : List Nat)
    (h : xs.length ≤ fuel) : stagesF fuel p xs = chainStages p xs :=
  stagesF_fuel_eq fuel xs.length p xs h (Nat.le_refl _)

/-- The root of the chain is its own first stage. -/
theorem chainStages_zero (p : Nat) (xs : List Nat) :
    (chainStages p xs).get? 0 = some (p, xs) := by
  cases xs <;> rfl

theorem chainStages_nil {p : Nat} {xs : List Nat}
    (h : stageFilter p xs = []) : chainStages p xs = [(p, xs)] := by
  cases hxs : xs with
  | nil => rfl
  | cons a as =>
    subst hxs
    show stagesF (a :: as).length p (a :: as) = [(p, a :: as)]
    rw [List.length_cons]
    show ((p, a :: as) :: match stageFilter p (a :: as) with
          | [] => []
          | q :: rest => stagesF as.length q rest) = [(p, a :: as)]
    rw [h]

theorem chainStages_cons {p q : Nat} {xs rest : List Nat}
    (h : stageFilter p xs = q :: rest) :
    chainStages p xs = (p, xs) :: chainStages q rest := by
  cases hxs : xs with
  | nil =>
    subst hxs
    simp [stageFilter] at h
  | cons a as =>
    subst hxs
    show stagesF (a :: as).length p (a :: as) = _
    rw [List.length_cons]
    show ((p, a :: as) :: match stageFilter p (a :: as) with
          | [] => []
          | r :: rs => stagesF as.length r rs) =
        (p, a :: as) :: chainStages q rest
    rw [h]
    have hlt : rest.length + 1 ≤ (a :: as).length := by
      have := stageFilter_length_le p (a :: as)
      rw [h] at this
      simpa using this
    show (p, a :: as) :: stagesF as.length q rest = _
    rw [stagesF_congr as.length q rest (by simpa using Nat.lt_succ_iff.mp hlt)]

/-- Dropping `k` stages of a chain leaves the chain rooted at stage `k`. -/
theorem chainStages_drop :
    ∀ (k : Nat) (p : Nat) (xs : List Nat) (q : Nat) (rest : List Nat),
      (chainStages p xs).get? k = some (q, rest) →
      (chainStages p xs).drop k = chainStages q rest := by
  intro k
  induction k with
  | zero =>
    intro p xs q rest h
    rw [chainStages_zero] at h
    simp only [Option.some.injEq, Prod.mk.injEq] at h
    obtain ⟨h1, h2⟩ := h
    subst h1; subst h2
    rfl
  | succ k ih =>
    intro p xs q rest h
    cases hf : stageFilter p xs with
    | nil =>
      rw [chainStages_nil hf] at h
      simp at h
    | cons r rs =>
      rw [chainStages_cons hf] at h ⊢
      exact ih r rs q rest h

/-- Stepping the chain: stage `k + 1` (when it exists) is spawned from
stage `k`'s first survivor, with the remaining survivors as its input. -/
theorem chainStages_get_succ {p : Nat} {xs : List Nat} {k q : Nat}
    {rest : List Nat}
    (h : (chainStages p xs).get? k = some (q, rest)) :
    (chainStages p xs).get? (k + 1) =
      match stageFilter q rest with
      | [] => none
      | r :: rs => some (r, rs) := by
  have hd := chainStages_drop k p xs q rest h
  have h1 : (chainStages p xs).get? (k + 1) = (chainStages q rest).get? 1 := by
    rw [← hd, List.get?_drop]
  rw [h1]
  cases hf : stageFilter q rest with
  | nil =>
    rw [chainStages_nil hf]
    rfl
  | cons r rs =>
    rw [chainStages_cons hf]
    show (chainStages r rs).get? 0 = some (r, rs)
    exact chainStages_zero r rs

theorem chainStages_succ_some {p : Nat} {xs : List Nat} {k q r : Nat}
    {rest rs : List Nat}
    (h : (chainStages p xs).get? k = some (q, rest))
    (hf : stageFilter q rest = r :: rs) :
    (chainStages p xs).get? (k + 1) = some (r, rs) := by
  rw [chainStages_get_succ h, hf]

/-- Inversion: stage `k + 1` comes from a stage `k` one of whose
survivors it received. -/
theorem chainStages_succ_inv {p : Nat} {xs : List Nat} {k pk : Nat}
    {ik : List Nat}
    (h : (chainStages p xs).get? (k + 1) = some (pk, ik)) :
    ∃ q rest, (chainStages p xs).get? k = some (q, rest) ∧
      stageFilter q rest = pk :: ik := by
  cases hget : (chainStages p xs).get? k with
  | none =>
    have h1 : (chainStages p xs).length ≤ k := List.get?_eq_none.mp hget
    have h2 : k + 1 < (chainStages p xs).length := (List.get?_eq_some.mp h).1
    omega
  | some s =>
    obtain ⟨q, rest⟩ := s
    have hs := chainStages_get_succ hget
    rw [h] at hs
    cases hf : stageFilter q rest with
    | nil =>
      rw [hf] at hs
      simp at hs
    | cons r rs =>
      rw [hf] at hs
      simp only [Option.some.injEq, Prod.mk.injEq] at hs
      obtain ⟨h1, h2⟩ := hs
      exact ⟨q, rest, rfl, by rw [hf, h1, h2]⟩

/-- The printed chain output is the list of the stages' primes. -/
theorem chainOut_eq_map_fst :
    ∀ (n p : Nat) (xs : List Nat), xs.length ≤ n →
      chainOut p xs = (chainStages p xs).map Prod.fst := by
  intro n
  induction n with
  | zero =>
    intro p xs h
    have hx : xs = [] := List.length_eq_zero.mp (Nat.le_zero.mp h)
    subst hx; rfl
  | succ n ih =>
    intro p xs h
    cases hf : stageFilter p xs with
    | nil => rw [chainOut_nil hf, chainStages_nil hf]; rfl
    | cons q rest =>
      rw [chainOut_cons hf, chainStages_cons hf]
      have hlen : rest.length ≤ n := by
        have := stageFilter_length_le p xs
        rw [hf] at this
        simp at this
        omega
      simp only [List.map_cons]
      rw [ih q rest hlen]

theorem chainOut_eq_stage_primes (p : Nat) (xs : List Nat) :
    chainOut p xs = (chainStages p xs).map Prod.fst :=
  chainOut_eq_map_fst xs.length p xs (Nat.le_refl _)

/-- Every value surviving the filters of stages `0..k` is divisible by
none of their primes (pure consequence of the chain structure, for any
initial stream). -/
theorem chain_no_div :
    ∀ (k p : Nat) (xs : List Nat) (pk : Nat) (ik : List Nat),
      (chainStages p xs).get? k = some (pk, ik) →
      ∀ v, v ∈ stageFilter pk ik →
        ∀ (j pj : Nat) (ij : List Nat), j ≤ k →
          (chainStages p xs).get? j = some (pj, ij) → ¬ pj ∣ v := by
  intro k
  induction k with
  | zero =>
    intro p xs pk ik hk v hv j pj ij hj hjget
    have hj0 : j = 0 := Nat.le_zero.mp hj
    subst hj0
    rw [chainStages_zero] at hk hjget
    simp only [Option.some.injEq, Prod.mk.injEq] at hk hjget
    obtain ⟨hk1, hk2⟩ := hk
    obtain ⟨hj1, hj2⟩ := hjget
    have hmod := (mem_stageFilter.mp hv).2
    rw [← hk1, ← hj1] at *
    intro hdvd
    exact hmod (Nat.dvd_iff_mod_eq_zero.mp (by rw [hk1, ← hj1] at hdvd; exact hdvd))
  | succ k ih =>
    intro p xs pk ik hk v hv j pj ij hj hjget
    obtain ⟨q, rest, hkq, hfilter⟩ := chainStages_succ_inv hk
    rcases Nat.lt_or_ge j (k + 1) with hlt | hge
    · have hvik : v ∈ ik := (mem_stageFilter.mp hv).1
      have hv2 : v ∈ stageFilter q rest := by
        rw [hfilter]
        exact List.mem_cons_of_mem pk hvik
      exact ih p xs q rest hkq v hv2 j pj ij (by omega) hjget
    · have hj1 : j = k + 1 := by omega
      subst hj1
      rw [hk] at hjget
      simp only [Option.some.injEq, Prod.mk.injEq] at hjget
      obtain ⟨h1, _⟩ := hjget
      subst h1
      have hmod := (mem_stageFilter.mp hv).2
      intro hdvd
      exact hmod (Nat.dvd_iff_mod_eq_zero.mp hdvd)

/-- C2: in the chain built by the driver over `[2, N]`, every value that
survives the filters of stages `0..k` (and hence reaches the cursor at
depth `k + 1`) is divisible by none of the primes of stages `0..k`; and
the first value pushed into the uninitialised cursor at depth `k + 1` —
the head survivor, which becomes the prime of the next Stage — is itself
prime, with no trial-division test anywhere in the chain (the model's
only tests are the `v % p` filters). -/
theorem chain_survivors_coprime_and_prime (N k pk : Nat) (ik : List Nat)
    (hN : 2 ≤ N)
    (hk : (chainStages START_PRIME (candidateRange N)).get? k = some (pk, ik)) :
    (∀ v, v ∈ stageFilter pk ik →
      ∀ (j pj : Nat) (ij : List Nat), j ≤ k →
        (chainStages START_PRIME (candidateRange N)).get? j = some (pj, ij) →
        ¬ pj ∣ v) ∧
    (∀ q rs, stageFilter pk ik = q :: rs → Nat.Prime q) := by
  constructor
  · exact chain_no_div k START_PRIME (candidateRange N) pk ik hk
  · intro q rs hf
    have hsucc := chainStages_succ_some hk hf
    have hq_mem : q ∈ chainOut START_PRIME (candidateRange N) := by
      rw [chainOut_eq_stage_primes]
      exact List.mem_map_of_mem Prod.fst (List.get?_mem hsucc)
    have hout : chainOut START_PRIME (candidateRange N) = primesBetween 2 N := by
      rw [← mainOut_eq_chainOut]
      exact mainOut_eq_primesBetween N hN
    rw [hout, primesBetween_mem] at hq_mem
    exact hq_mem.1

/-- Witness for C2 at `N = 10`, `k = 1` (stage of prime 3, input
`[5, 7, 9]`; its survivors `[5, 7]` are coprime to 2 and 3 and the first,
5, is prime). -/
theorem chain_survivors_coprime_and_prime_witness :
    (2 ≤ 10 ∧
      (chainStages START_PRIME (candidateRange 10)).get? 1 = some (3, [5, 7, 9])) ∧
    ((∀ v, v ∈ stageFilter 3 [5, 7, 9] →
      ∀ (j pj : Nat) (ij : List Nat), j ≤ 1 →
        (chainStages START_PRIME (candidateRange 10)).get? j = some (pj, ij) →
        ¬ pj ∣ v) ∧
    (∀ q rs, stageFilter 3 [5, 7, 9] = q :: rs → Nat.Prime q)) :=
  ⟨⟨by decide, by decide⟩,
    chain_survivors_coprime_and_prime 10 1 3 [5, 7, 9] (by decide) (by decide)⟩

/-! ## Operational trace model

Each process's observable actions, in its own program order.  Pipe file
descriptors are modelled as integers: channel `c`'s read end is `rfd c =
2 * c`, its write end is `wfd c = 2 * c + 1`, and the invalid sentinel is
`PIPE_INVALID = -1` (the initialiser `{PIPE_INVALID, PIPE_INVALID}` of
the source).  Channel `c` is the pipe read by the Stage at depth `c`; the
driver (depth 0) creates channel 1, the Stage at depth `d` creates
channel `d + 1` on first need. -/

/-- `PIPE_INVALID` from the source. -/
def PIPE_INVALID : Int := -1

/-- Read-end file descriptor of channel `c`. -/
def rfd (c : Nat) : Int := 2 * c

/-- Write-end file descriptor of channel `c`. -/
def wfd (c : Nat) : Int := 2 * c + 1

/-- Observable actions of a process. -/
inductive Ev where
  /-- `printf("prime %d\n", n)` -/
  | print (n : Nat)
  /-- successful `pipe()` creating channel `c` -/
  | pipeCreate (c : Nat)
  /-- successful `fork()` whose child is the Stage reading channel `c`
  with prime `v` -/
  | spawnStage (c : Nat) (v : Nat)
  /-- `close(fd)` with the argument value actually passed -/
  | closeFd (fd : Int)
  /-- successful `write(fd, &v, 4)` -/
  | writeVal (fd : Int) (v : Nat)
  /-- a `read` of the upstream pipe returning the value `v` -/
  | recv (v : Nat)
  /-- the `read` of the upstream pipe returning 0: end-of-stream -/
  | eof
  /-- `wait(0)` returning -/
  | waitChild
  /-- `exit(code)` -/
  | exitCode (code : Nat)
  /-- `printf("pipe error, current index: %d\n", n)` -/
  | logPipeErr (n : Nat)
  /-- `printf("fork error, current index: %d\n", n)` -/
  | logForkErr (n : Nat)
  deriving DecidableEq, Repr

/-- The caller-side behaviour of `deliver_prime(n, pipe_left)` on the
success path: with an uninitialised cursor (`pipe_left[PIPE_WRITE] ==
PIPE_INVALID`) it creates channel `down` and forks the Stage for `n`; the
parent branch then simply continues (it closes nothing).  With an
initialised cursor it writes `n` to the stored write end.  Returns the
emitted events and the cursor after the call. -/
def deliver_prime (n : Nat) (down : Nat) (cur : Int × Int) :
    List Ev × (Int × Int) :=
  if cur.2 = PIPE_INVALID then
    ([Ev.pipeCreate down, Ev.spawnStage down n], (rfd down, wfd down))
  else
    ([Ev.writeVal cur.2 n], cur)

/-- `deliver_prime` with the outcomes of the fallible primitives made
explicit: `pipeOk`/`forkOk` tell whether `pipe()`/`fork()` succeed, and
`writeRet` is the return value of `write`.  `Except.error (evs, code)`
models the worker terminating via `exit(code)` after emitting `evs`. -/
def deliver_prime_err (n : Nat) (down : Nat) (cur : Int × Int)
    (pipeOk forkOk : Bool) (writeRet : Int) :
    Except (List Ev × Nat) (List Ev × (Int × Int)) :=
  if cur.2 = PIPE_INVALID then
    if pipeOk = false then
      Except.error ([Ev.logPipeErr n], 1)
    else if forkOk = false then
      Except.error ([Ev.pipeCreate down, Ev.logForkErr n], 1)
    else
      Except.ok ([Ev.pipeCreate down, Ev.spawnStage down n], (rfd down, wfd down))
  else
    if writeRet ≤ 0 then
      Except.error ([], 1)
    else
      Except.ok ([Ev.writeVal cur.2 n], cur)

/-- The Stage's `while (read(...) > 0)` loop: reads `xs` in order,
discards multiples of its prime `n`, and pushes every survivor through
`deliver_prime` into its cursor (downstream channel id `down`).  Returns
the events of the whole loop and the final cursor. -/
def run_stage_loop (n down : Nat) (cur : Int × Int) (xs : List Nat) :
    List Ev × (Int × Int) :=
  match xs with
  | [] => ([], cur)
  | v :: rest =>
    if v % n = 0 then
      let r := run_stage_loop n down cur rest
      (Ev.recv v :: r.1, r.2)
    else
      let s := deliver_prime v down cur
      let r := run_stage_loop n down s.2 rest
      (Ev.recv v :: (s.1 ++ r.1), r.2)

/-- `close_pipe_if_valid(p)`: emits a `close` only for a valid
descriptor. -/
def close_pipe_if_valid (p : Int) : List Ev :=
  if p = PIPE_INVALID then [] else [Ev.closeFd p]

/-- All events of the Stage worker with prime `n`, upstream channel `c`
and upstream value sequence `xs` (the body of the `if (ret == 0)` branch
of `deliver_prime` in the source): close the inherited upstream write
end, print the prime, run the filter loop with an uninitialised downstream
cursor (channel `c + 1`), then on end-of-stream close the upstream read
end and the downstream cursor's ends (guarded), wait for the child and
exit 0. -/
def stage_events (n c : Nat) (xs : List Nat) : List Ev :=
  let r := run_stage_loop n (c + 1) (PIPE_INVALID, PIPE_INVALID) xs
  Ev.closeFd (wfd c) :: Ev.print n ::
    (r.1 ++ Ev.eof ::
      (close_pipe_if_valid (rfd c) ++ close_pipe_if_valid r.2.1 ++
        close_pipe_if_valid r.2.2 ++ [Ev.waitChild, Ev.exitCode 0]))

/-- The driver's `for` loop over the remaining candidates: skips
multiples of `START_PRIME` and pushes the rest through `deliver_prime`
into the top-level cursor (channel 1). -/
def drive_loop (cur : Int × Int) (xs : List Nat) : List Ev × (Int × Int) :=
  match xs with
  | [] => ([], cur)
  | i :: rest =>
    if i % START_PRIME = 0 then
      drive_loop cur rest
    else
      let s := deliver_prime i 1 cur
      let r := drive_loop s.2 rest
      (s.1 ++ r.1, r.2)

/-- All events of the driver (`main`) with upper bound `N` (the source
fixes `N = MAX_PRIMES`): print `START_PRIME`, run the candidate loop,
then close both slots of the top-level cursor with *unguarded* `close`
calls (the source uses raw `close(p[PIPE_READ]); close(p[PIPE_WRITE])`),
wait and exit 0. -/
def main_events (N : Nat) : List Ev :=
  let r := drive_loop (PIPE_INVALID, PIPE_INVALID) (candidateRange N)
  Ev.print START_PRIME ::
    (r.1 ++ [Ev.closeFd r.2.1, Ev.closeFd r.2.2, Ev.waitChild, Ev.exitCode 0])

/-- The trace of the process at depth `d` in the run with bound `N`:
depth 0 is the driver, depth `d ≥ 1` is the Stage with the prime and
input stream of entry `d` of the chain, reading channel `d`. -/
def proc_trace (N d : Nat) : List Ev :=
  match d with
  | 0 => main_events N
  | e + 1 =>
    match (chainStages START_PRIME (candidateRange N)).get? (e + 1) with
    | some s => stage_events s.1 (e + 1) s.2
    | none => []

/-! ### Event extractors -/

/-- The value a forwarding event pushes downstream: the spawn carries the
first survivor (it becomes the child's prime argument), a `write` carries
every later one. -/
def forwardedVal : Ev → Option Nat
  | Ev.spawnStage _ v => some v
  | Ev.writeVal _ v => some v
  | _ => none

/-- Sequence of values an event list forwards downstream, in order. -/
def forwarded (evs : List Ev) : List Nat :=
  evs.filterMap forwardedVal

def recvVal : Ev → Option Nat
  | Ev.recv v => some v
  | _ => none

/-- Sequence of values an event list receives upstream, in order. -/
def received (evs : List Ev) : List Nat :=
  evs.filterMap recvVal

def printVal : Ev → Option Nat
  | Ev.print n => some n
  | _ => none

/-- Sequence of primes an event list prints, in order. -/
def prints (evs : List Ev) : List Nat :=
  evs.filterMap printVal

def isSpawn : Ev → Bool
  | Ev.spawnStage _ _ => true
  | _ => false

def isCloseEv : Ev → Bool
  | Ev.closeFd _ => true
  | _ => false

/-- Number of workers an event list spawns. -/
def spawnCount (evs : List Ev) : Nat :=
  (evs.filter isSpawn).length

/-! ### Loop lemmas -/

theorem deliver_prime_uninit {n down : Nat} {cur : Int × Int}
    (h : cur.2 = PIPE_INVALID) :
    deliver_prime n down cur =
      ([Ev.pipeCreate down, Ev.spawnStage down n], (rfd down, wfd down)) := by
  unfold deliver_prime
  rw [if_pos h]

theorem deliver_prime_init {n down : Nat} {cur : Int × Int}
    (h : ¬ cur.2 = PIPE_INVALID) :
    deliver_prime n down cur = ([Ev.writeVal cur.2 n], cur) := by
  unfold deliver_prime
  rw [if_neg h]

/-- The write end of a real channel is never the invalid sentinel. -/
theorem wfd_ne_invalid (c : Nat) : ¬ wfd c = PIPE_INVALID := by
  unfold wfd PIPE_INVALID
  omega

/-- The read end of a real channel is never the invalid sentinel. -/
theorem rfd_ne_invalid (c : Nat) : ¬ rfd c = PIPE_INVALID := by
  unfold rfd PIPE_INVALID
  omega

/-- Event kinds a forwarding loop may emit. -/
def loopEv : Ev → Bool
  | Ev.recv _ => true
  | Ev.pipeCreate _ => true
  | Ev.spawnStage _ _ => true
  | Ev.writeVal _ _ => true
  | _ => false

theorem deliver_prime_loopEv (n down : Nat) (cur : Int × Int) :
    ∀ e ∈ (deliver_prime n down cur).1, loopEv e = true := by
  intro e he
  by_cases h : cur.2 = PIPE_INVALID
  · rw [deliver_prime_uninit h] at he
    simp only [List.mem_cons, List.not_mem_nil, or_false] at he
    rcases he with rfl | rfl <;> rfl
  · rw [deliver_prime_init h] at he
    simp only [List.mem_cons, List.not_mem_nil, or_false] at he
    subst he
    rfl

theorem run_stage_loop_loopEv (n down : Nat) :
    ∀ (xs : List Nat) (cur : Int × Int),
      ∀ e ∈ (run_stage_loop n down cur xs).1, loopEv e = true := by
  intro xs
  induction xs with
  | nil =>
    intro cur e he
    cases he
  | cons v rest ih =>
    intro cur e he
    unfold run_stage_loop at he
    by_cases h : v % n = 0
    · rw [if_pos h] at he
      rcases List.mem_cons.mp he with h1 | h1
      · subst h1; rfl
      · exact ih cur e h1
    · rw [if_neg h] at he
      rcases List.mem_cons.mp he with h1 | h1
      · subst h1; rfl
      · rcases List.mem_append.mp h1 with h2 | h2
        · exact deliver_prime_loopEv v down cur e h2
        · exact ih _ e h2

theorem drive_loop_loopEv :
    ∀ (xs : List Nat) (cur : Int × Int),
      ∀ e ∈ (drive_loop cur xs).1, loopEv e = true := by
  intro xs
  induction xs with
  | nil =>
    intro cur e he
    cases he
  | cons v rest ih =>
    intro cur e he
    unfold drive_loop at he
    by_cases h : v % START_PRIME = 0
    · rw [if_pos h] at he
      exact ih cur e he
    · rw [if_neg h] at he
      rcases List.mem_append.mp he with h2 | h2
      · exact deliver_prime_loopEv v 1 cur e h2
      · exact ih _ e h2

/-- A loop event is never a `close`, `wait`, `exit`, `eof`, print or
error log. -/
theorem loopEv_not_close {e : Ev} (h : loopEv e = true) :
    (∀ fd, ¬ e = Ev.closeFd fd) ∧ ¬ e = Ev.waitChild ∧
    (∀ k, ¬ e = Ev.exitCode k) ∧ ¬ e = Ev.eof ∧
    (∀ m, ¬ e = Ev.print m) := by
  cases e <;> simp_all [loopEv]

/-- The cursor is preserved by a loop that starts initialised. -/
theorem run_stage_loop_cursor_init (n down : Nat) :
    ∀ (xs : List Nat) (cur : Int × Int), ¬ cur.2 = PIPE_INVALID →
      (run_stage_loop n down cur xs).2 = cur := by
  intro xs
  induction xs with
  | nil => intro cur _; rfl
  | cons v rest ih =>
    intro cur hcur
    unfold run_stage_loop
    by_cases h : v % n = 0
    · rw [if_pos h]
      exact ih cur hcur
    · rw [if_neg h]
      show (run_stage_loop n down (deliver_prime v down cur).2 rest).2 = cur
      rw [deliver_prime_init hcur]
      exact ih cur hcur

/-- The final cursor of a loop is the initial one or the freshly created
channel's endpoint pair. -/
theorem run_stage_loop_cursor (n down : Nat) :
    ∀ (xs : List Nat) (cur : Int × Int),
      (run_stage_loop n down cur xs).2 = cur ∨
      (run_stage_loop n down cur xs).2 = (rfd down, wfd down) := by
  intro xs
  induction xs with
  | nil => intro cur; exact Or.inl rfl
  | cons v rest ih =>
    intro cur
    unfold run_stage_loop
    by_cases h : v % n = 0
    · rw [if_pos h]
      exact ih cur
    · rw [if_neg h]
      show (run_stage_loop n down (deliver_prime v down cur).2 rest).2 = cur ∨ _
      by_cases hcur : cur.2 = PIPE_INVALID
      · rw [deliver_prime_uninit hcur]
        right
        exact run_stage_loop_cursor_init n down rest _ (wfd_ne_invalid down)
      · rw [deliver_prime_init hcur]
        exact ih cur

/-- Once there is a survivor, the loop's cursor ends initialised on the
fresh channel. -/
theorem run_stage_loop_cursor_spawned (n down : Nat) :
    ∀ (xs : List Nat) (cur : Int × Int), cur.2 = PIPE_INVALID →
      ¬ stageFilter n xs = [] →
      (run_stage_loop n down cur xs).2 = (rfd down, wfd down) := by
  intro xs
  induction xs with
  | nil =>
    intro cur _ hne
    exact absurd rfl hne
  | cons v rest ih =>
    intro cur hcur hne
    unfold run_stage_loop
    by_cases h : v % n = 0
    · rw [if_pos h]
      refine ih cur hcur ?_
      intro hrest
      apply hne
      show (v :: rest).filter (fun v => decide (v % n ≠ 0)) = []
      rw [List.filter_cons_of_neg (by simpa using h)]
      exact hrest
    · rw [if_neg h]
      show (run_stage_loop n down (deliver_prime v down cur).2 rest).2 = _
      rw [deliver_prime_uninit hcur]
      exact run_stage_loop_cursor_init n down rest _ (wfd_ne_invalid down)

/-- Same statements for the driver's loop. -/
theorem drive_loop_cursor_init :
    ∀ (xs : List Nat) (cur : Int × Int), ¬ cur.2 = PIPE_INVALID →
      (drive_loop cur xs).2 = cur := by
  intro xs
  induction xs with
  | nil => intro cur _; rfl
  | cons v rest ih =>
    intro cur hcur
    unfold drive_loop
    by_cases h : v % START_PRIME = 0
    · rw [if_pos h]
      exact ih cur hcur
    · rw [if_neg h]
      show (drive_loop (deliver_prime v 1 cur).2 rest).2 = cur
      rw [deliver_prime_init hcur]
      exact ih cur hcur

theorem drive_loop_cursor :
    ∀ (xs : List Nat) (cur : Int × Int),
      (drive_loop cur xs).2 = cur ∨ (drive_loop cur xs).2 = (rfd 1, wfd 1) := by
  intro xs
  induction xs with
  | nil => intro cur; exact Or.inl rfl
  | cons v rest ih =>
    intro cur
    unfold drive_loop
    by_cases h : v % START_PRIME = 0
    · rw [if_pos h]
      exact ih cur
    · rw [if_neg h]
      show (drive_loop (deliver_prime v 1 cur).2 rest).2 = cur ∨ _
      by_cases hcur : cur.2 = PIPE_INVALID
      · rw [deliver_prime_uninit hcur]
        right
        exact drive_loop_cursor_init rest _ (wfd_ne_invalid 1)
      · rw [deliver_prime_init hcur]
        exact ih cur

theorem drive_loop_cursor_spawned :
    ∀ (xs : List Nat) (cur : Int × Int), cur.2 = PIPE_INVALID →
      ¬ stageFilter START_PRIME xs = [] →
      (drive_loop cur xs).2 = (rfd 1, wfd 1) := by
  intro xs
  induction xs with
  | nil =>
    intro cur _ hne
    exact absurd rfl hne
  | cons v rest ih =>
    intro cur hcur hne
    unfold drive_loop
    by_cases h : v % START_PRIME = 0
    · rw [if_pos h]
      refine ih cur hcur ?_
      intro hrest
      apply hne
      show (v :: rest).filter (fun v => decide (v % START_PRIME ≠ 0)) = []
      rw [List.filter_cons_of_neg (by simpa using h)]
      exact hrest
    · rw [if_neg h]
      show (drive_loop (deliver_prime v 1 cur).2 rest).2 = _
      rw [deliver_prime_uninit hcur]
      exact drive_loop_cursor_init rest _ (wfd_ne_invalid 1)

/-! ### Extractor lemmas -/

theorem received_cons_recv (v : Nat) (t : List Ev) :
    received (Ev.recv v :: t) = v :: received t := rfl

theorem received_append (l1 l2 : List Ev) :
    received (l1 ++ l2) = received l1 ++ received l2 :=
  List.filterMap_append l1 l2 recvVal

theorem forwarded_append (l1 l2 : List Ev) :
    forwarded (l1 ++ l2) = forwarded l1 ++ forwarded l2 :=
  List.filterMap_append l1 l2 forwardedVal

theorem prints_append (l1 l2 : List Ev) :
    prints (l1 ++ l2) = prints l1 ++ prints l2 :=
  List.filterMap_append l1 l2 printVal

theorem received_deliver (n down : Nat) (cur : Int × Int) :
    received (deliver_prime n down cur).1 = [] := by
  by_cases h : cur.2 = PIPE_INVALID
  · rw [deliver_prime_uninit h]
    rfl
  · rw [deliver_prime_init h]
    rfl

theorem forwarded_deliver (n down : Nat) (cur : Int × Int) :
    forwarded (deliver_prime n down cur).1 = [n] := by
  by_cases h : cur.2 = PIPE_INVALID
  · rw [deliver_prime_uninit h]
    rfl
  · rw [deliver_prime_init h]
    rfl

theorem prints_deliver (n down : Nat) (cur : Int × Int) :
    prints (deliver_prime n down cur).1 = [] := by
  by_cases h : cur.2 = PIPE_INVALID
  · rw [deliver_prime_uninit h]
    rfl
  · rw [deliver_prime_init h]
    rfl

/-- The loop receives exactly its upstream sequence, in order. -/
theorem run_stage_loop_received (n down : Nat) :
    ∀ (xs : List Nat) (cur : Int × Int),
      received (run_stage_loop n down cur xs).1 = xs := by
  intro xs
  induction xs with
  | nil => intro cur; rfl
  | cons v rest ih =>
    intro cur
    unfold run_stage_loop
    by_cases h : v % n = 0
    · rw [if_pos h]
      show received (Ev.recv v :: (run_stage_loop n down cur rest).1) = v :: rest
      rw [received_cons_recv, ih cur]
    · rw [if_neg h]
      show received (Ev.recv v :: ((deliver_prime v down cur).1 ++
        (run_stage_loop n down (deliver_prime v down cur).2 rest).1)) = v :: rest
      rw [received_cons_recv, received_append, received_deliver, ih _]
      rfl

/-- The loop forwards exactly the survivors of its prime's filter, in
order. -/
theorem run_stage_loop_forwarded (n down : Nat) :
    ∀ (xs : List Nat) (cur : Int × Int),
      forwarded (run_stage_loop n down cur xs).1 = stageFilter n xs := by
  intro xs
  induction xs with
  | nil => intro cur; rfl
  | cons v rest ih =>
    intro cur
    unfold run_stage_loop
    by_cases h : v % n = 0
    · rw [if_pos h]
      show forwarded (Ev.recv v :: (run_stage_loop n down cur rest).1) =
        stageFilter n (v :: rest)
      have h2 : stageFilter n (v :: rest) = stageFilter n rest := by
        show (v :: rest).filter (fun v => decide (v % n ≠ 0)) = _
        rw [List.filter_cons_of_neg (by simpa using h)]
        rfl
      rw [h2, ← ih cur]
      rfl
    · rw [if_neg h]
      show forwarded (Ev.recv v :: ((deliver_prime v down cur).1 ++
        (run_stage_loop n down (deliver_prime v down cur).2 rest).1)) =
        stageFilter n (v :: rest)
      have h2 : stageFilter n (v :: rest) = v :: stageFilter n rest := by
        show (v :: rest).filter (fun v => decide (v % n ≠ 0)) = _
        rw [List.filter_cons_of_pos (by simpa using h)]
        rfl
      have h3 : forwarded (Ev.recv v :: ((deliver_prime v down cur).1 ++
          (run_stage_loop n down (deliver_prime v down cur).2 rest).1)) =
          forwarded ((deliver_prime v down cur).1 ++
          (run_stage_loop n down (deliver_prime v down cur).2 rest).1) := rfl
      rw [h3, forwarded_append, forwarded_deliver, ih _, h2]
      rfl

/-- The driver's loop forwards exactly the candidates surviving the
`START_PRIME` filter, in order. -/
theorem drive_loop_forwarded :
    ∀ (xs : List Nat) (cur : Int × Int),
      forwarded (drive_loop cur xs).1 = stageFilter START_PRIME xs := by
  intro xs
  induction xs with
  | nil => intro cur; rfl
  | cons v rest ih =>
    intro cur
    unfold drive_loop
    by_cases h : v % START_PRIME = 0
    · rw [if_pos h]
      rw [ih cur]
      show stageFilter START_PRIME rest =
        (v :: rest).filter (fun v => decide (v % START_PRIME ≠ 0))
      rw [List.filter_cons_of_neg (by simpa using h)]
      rfl
    · rw [if_neg h]
      show forwarded ((deliver_prime v 1 cur).1 ++
        (drive_loop (deliver_prime v 1 cur).2 rest).1) =
        stageFilter START_PRIME (v :: rest)
      have h2 : stageFilter START_PRIME (v :: rest) =
          v :: stageFilter START_PRIME rest := by
        show (v :: rest).filter (fun v => decide (v % START_PRIME ≠ 0)) = _
        rw [List.filter_cons_of_pos (by simpa using h)]
        rfl
      rw [forwarded_append, forwarded_deliver, ih _, h2]
      rfl

theorem loopEv_extractors {e : Ev} (h : loopEv e = true) :
    printVal e = none := by
  cases e <;> simp_all [loopEv, printVal]

theorem run_stage_loop_prints (n down : Nat) (xs : List Nat)
    (cur : Int × Int) : prints (run_stage_loop n down cur xs).1 = [] := by
  unfold prints
  rw [List.filterMap_eq_nil]
  intro e he
  exact loopEv_extractors (run_stage_loop_loopEv n down xs cur e he)

theorem drive_loop_prints (xs : List Nat) (cur : Int × Int) :
    prints (drive_loop cur xs).1 = [] := by
  unfold prints
  rw [List.filterMap_eq_nil]
  intro e he
  exact loopEv_extractors (drive_loop_loopEv xs cur e he)

theorem close_pipe_if_valid_extractors (p : Int) :
    received (close_pipe_if_valid p) = [] ∧
    forwarded (close_pipe_if_valid p) = [] ∧
    prints (close_pipe_if_valid p) = [] := by
  unfold close_pipe_if_valid
  split <;> exact ⟨rfl, rfl, rfl⟩

/-- The extractor values of a Stage's teardown suffix are empty. -/
theorem stage_teardown_extractors (c : Nat) (w : Int × Int) :
    received (close_pipe_if_valid (rfd c) ++ close_pipe_if_valid w.1 ++
      close_pipe_if_valid w.2 ++ [Ev.waitChild, Ev.exitCode 0]) = [] ∧
    forwarded (close_pipe_if_valid (rfd c) ++ close_pipe_if_valid w.1 ++
      close_pipe_if_valid w.2 ++ [Ev.waitChild, Ev.exitCode 0]) = [] ∧
    prints (close_pipe_if_valid (rfd c) ++ close_pipe_if_valid w.1 ++
      close_pipe_if_valid w.2 ++ [Ev.waitChild, Ev.exitCode 0]) = [] := by
  refine ⟨?_, ?_, ?_⟩ <;>
    simp [received_append, forwarded_append, prints_append,
      (close_pipe_if_valid_extractors (rfd c)).1,
      (close_pipe_if_valid_extractors (rfd c)).2.1,
      (close_pipe_if_valid_extractors (rfd c)).2.2,
      (close_pipe_if_valid_extractors w.1).1,
      (close_pipe_if_valid_extractors w.1).2.1,
      (close_pipe_if_valid_extractors w.1).2.2,
      (close_pipe_if_valid_extractors w.2).1,
      (close_pipe_if_valid_extractors w.2).2.1,
      (close_pipe_if_valid_extractors w.2).2.2] <;>
    rfl

/-- Explicit decomposition of a Stage's trace. -/
theorem stage_events_def (n c : Nat) (xs : List Nat) :
    stage_events n c xs =
      Ev.closeFd (wfd c) :: Ev.print n ::
        ((run_stage_loop n (c + 1) (PIPE_INVALID, PIPE_INVALID) xs).1 ++
          Ev.eof ::
          (close_pipe_if_valid (rfd c) ++
           close_pipe_if_valid
             (run_stage_loop n (c + 1) (PIPE_INVALID, PIPE_INVALID) xs).2.1 ++
           close_pipe_if_valid
             (run_stage_loop n (c + 1) (PIPE_INVALID, PIPE_INVALID) xs).2.2 ++
           [Ev.waitChild, Ev.exitCode 0])) := rfl

/-- Explicit decomposition of the driver's trace. -/
theorem main_events_def (N : Nat) :
    main_events N =
      Ev.print START_PRIME ::
        ((drive_loop (PIPE_INVALID, PIPE_INVALID) (candidateRange N)).1 ++
          [Ev.closeFd (drive_loop (PIPE_INVALID, PIPE_INVALID) (candidateRange N)).2.1,
           Ev.closeFd (drive_loop (PIPE_INVALID, PIPE_INVALID) (candidateRange N)).2.2,
           Ev.waitChild, Ev.exitCode 0]) := rfl

theorem prints_cons_closeFd (fd : Int) (t : List Ev) :
    prints (Ev.closeFd fd :: t) = prints t := rfl

theorem prints_cons_eof (t : List Ev) :
    prints (Ev.eof :: t) = prints t := rfl

theorem prints_cons_print (m : Nat) (t : List Ev) :
    prints (Ev.print m :: t) = m :: prints t := rfl

theorem received_cons_closeFd (fd : Int) (t : List Ev) :
    received (Ev.closeFd fd :: t) = received t := rfl

theorem received_cons_eof (t : List Ev) :
    received (Ev.eof :: t) = received t := rfl

theorem received_cons_print (m : Nat) (t : List Ev) :
    received (Ev.print m :: t) = received t := rfl

theorem forwarded_cons_closeFd (fd : Int) (t : List Ev) :
    forwarded (Ev.closeFd fd :: t) = forwarded t := rfl

theorem forwarded_cons_eof (t : List Ev) :
    forwarded (Ev.eof :: t) = forwarded t := rfl

theorem forwarded_cons_print (m : Nat) (t : List Ev) :
    forwarded (Ev.print m :: t) = forwarded t := rfl

/-- C3: a Stage first emits its prime `p` — the only line it ever prints,
emitted at position 1 of its trace, before it touches any upstream
value — and the sequence of values it forwards downstream (the spawn's
carried value followed by its writes) is exactly the subsequence of the
values it received that are not divisible by `p`, in receive order:
multiples of `p` are discarded and nothing else is dropped or
reordered. -/
theorem stage_emits_prime_then_filters (n c : Nat) (xs : List Nat) :
    prints (stage_events n c xs) = [n] ∧
    (stage_events n c xs).get? 1 = some (Ev.print n) ∧
    received (stage_events n c xs) = xs ∧
    forwarded (stage_events n c xs) =
      (received (stage_events n c xs)).filter (fun v => decide (v % n ≠ 0)) := by
  have hr := run_stage_loop_received n (c + 1) xs (PIPE_INVALID, PIPE_INVALID)
  have hf := run_stage_loop_forwarded n (c + 1) xs (PIPE_INVALID, PIPE_INVALID)
  have hp := run_stage_loop_prints n (c + 1) xs (PIPE_INVALID, PIPE_INVALID)
  have htd := stage_teardown_extractors c
    (run_stage_loop n (c + 1) (PIPE_INVALID, PIPE_INVALID) xs).2
  have e1 : prints (stage_events n c xs) = [n] := by
    rw [stage_events_def, prints_cons_closeFd, prints_cons_print,
      prints_append, hp, prints_cons_eof, htd.2.2]
    rfl
  have e2 : received (stage_events n c xs) = xs := by
    rw [stage_events_def, received_cons_closeFd, received_cons_print,
      received_append, hr, received_cons_eof, htd.1, List.append_nil]
  have e3 : forwarded (stage_events n c xs) = stageFilter n xs := by
    rw [stage_events_def, forwarded_cons_closeFd, forwarded_cons_print,
      forwarded_append, hf, forwarded_cons_eof, htd.2.1, List.append_nil]
  refine ⟨e1, rfl, e2, ?_⟩
  rw [e3, e2]
  rfl

/-! ### Spawn counting -/

theorem spawnCount_append (l1 l2 : List Ev) :
    spawnCount (l1 ++ l2) = spawnCount l1 + spawnCount l2 := by
  unfold spawnCount
  rw [List.filter_append, List.length_append]

theorem spawnCount_cons_recv (v : Nat) (t : List Ev) :
    spawnCount (Ev.recv v :: t) = spawnCount t := rfl

theorem spawnCount_deliver_uninit {n down : Nat} {cur : Int × Int}
    (h : cur.2 = PIPE_INVALID) :
    spawnCount (deliver_prime n down cur).1 = 1 := by
  rw [deliver_prime_uninit h]
  rfl

theorem spawnCount_deliver_init {n down : Nat} {cur : Int × Int}
    (h : ¬ cur.2 = PIPE_INVALID) :
    spawnCount (deliver_prime n down cur).1 = 0 := by
  rw [deliver_prime_init h]
  rfl

/-- A loop that starts with an initialised cursor never creates a channel
nor spawns: every call lands in the plain-write branch. -/
theorem run_stage_loop_spawn_init (n down : Nat) :
    ∀ (xs : List Nat) (cur : Int × Int), ¬ cur.2 = PIPE_INVALID →
      spawnCount (run_stage_loop n down cur xs).1 = 0 := by
  intro xs
  induction xs with
  | nil => intro cur _; rfl
  | cons v rest ih =>
    intro cur hcur
    unfold run_stage_loop
    by_cases h : v % n = 0
    · rw [if_pos h]
      show spawnCount (Ev.recv v :: (run_stage_loop n down cur rest).1) = 0
      rw [spawnCount_cons_recv]
      exact ih cur hcur
    · rw [if_neg h]
      show spawnCount (Ev.recv v :: ((deliver_prime v down cur).1 ++
        (run_stage_loop n down (deliver_prime v down cur).2 rest).1)) = 0
      rw [spawnCount_cons_recv, spawnCount_append,
        spawnCount_deliver_init hcur, deliver_prime_init hcur]
      show 0 + spawnCount (run_stage_loop n down cur rest).1 = 0
      rw [ih cur hcur]

/-- A Stage's loop spawns exactly one child if it has a survivor, none
otherwise. -/
theorem run_stage_loop_spawn_uninit (n down : Nat) :
    ∀ (xs : List Nat) (cur : Int × Int), cur.2 = PIPE_INVALID →
      spawnCount (run_stage_loop n down cur xs).1 =
        (if stageFilter n xs = [] then 0 else 1) := by
  intro xs
  induction xs with
  | nil =>
    intro cur _
    rfl
  | cons v rest ih =>
    intro cur hcur
    unfold run_stage_loop
    by_cases h : v % n = 0
    · rw [if_pos h]
      show spawnCount (Ev.recv v :: (run_stage_loop n down cur rest).1) = _
      rw [spawnCount_cons_recv, ih cur hcur]
      have hfe : stageFilter n (v :: rest) = stageFilter n rest := by
        show (v :: rest).filter (fun v => decide (v % n ≠ 0)) = _
        rw [List.filter_cons_of_neg (by simpa using h)]
        rfl
      rw [hfe]
    · rw [if_neg h]
      show spawnCount (Ev.recv v :: ((deliver_prime v down cur).1 ++
        (run_stage_loop n down (deliver_prime v down cur).2 rest).1)) = _
      rw [spawnCount_cons_recv, spawnCount_append,
        spawnCount_deliver_uninit hcur, deliver_prime_uninit hcur]
      have h0 : spawnCount
          (run_stage_loop n down (rfd down, wfd down) rest).1 = 0 :=
        run_stage_loop_spawn_init n down rest _ (wfd_ne_invalid down)
      rw [h0]
      have hfe : stageFilter n (v :: rest) = v :: stageFilter n rest := by
        show (v :: rest).filter (fun v => decide (v % n ≠ 0)) = _
        rw [List.filter_cons_of_pos (by simpa using h)]
        rfl
      rw [hfe]
      rfl

/-- Same statements for the driver's loop. -/
theorem drive_loop_spawn_init :
    ∀ (xs : List Nat) (cur : Int × Int), ¬ cur.2 = PIPE_INVALID →
      spawnCount (drive_loop cur xs).1 = 0 := by
  intro xs
  induction xs with
  | nil => intro cur _; rfl
  | cons v rest ih =>
    intro cur hcur
    unfold drive_loop
    by_cases h : v % START_PRIME = 0
    · rw [if_pos h]
      exact ih cur hcur
    · rw [if_neg h]
      show spawnCount ((deliver_prime v 1 cur).1 ++
        (drive_loop (deliver_prime v 1 cur).2 rest).1) = 0
      rw [spawnCount_append, spawnCount_deliver_init hcur,
        deliver_prime_init hcur]
      show 0 + spawnCount (drive_loop cur rest).1 = 0
      rw [ih cur hcur]

theorem drive_loop_spawn_uninit :
    ∀ (xs : List Nat) (cur : Int × Int), cur.2 = PIPE_INVALID →
      spawnCount (drive_loop cur xs).1 =
        (if stageFilter START_PRIME xs = [] then 0 else 1) := by
  intro xs
  induction xs with
  | nil =>
    intro cur _
    rfl
  | cons v rest ih =>
    intro cur hcur
    unfold drive_loop
    by_cases h : v % START_PRIME = 0
    · rw [if_pos h]
      rw [ih cur hcur]
      have hfe : stageFilter START_PRIME (v :: rest) =
          stageFilter START_PRIME rest := by
        show (v :: rest).filter (fun v => decide (v % START_PRIME ≠ 0)) = _
        rw [List.filter_cons_of_neg (by simpa using h)]
        rfl
      rw [hfe]
    · rw [if_neg h]
      show spawnCount ((deliver_prime v 1 cur).1 ++
        (drive_loop (deliver_prime v 1 cur).2 rest).1) = _
      rw [spawnCount_append, spawnCount_deliver_uninit hcur,
        deliver_prime_uninit hcur]
      have h0 : spawnCount (drive_loop (rfd 1, wfd 1) rest).1 = 0 :=
        drive_loop_spawn_init rest _ (wfd_ne_invalid 1)
      rw [h0]
      have hfe : stageFilter START_PRIME (v :: rest) =
          v :: stageFilter START_PRIME rest := by
        show (v :: rest).filter (fun v => decide (v % START_PRIME ≠ 0)) = _
        rw [List.filter_cons_of_pos (by simpa using h)]
        rfl
      rw [hfe]
      rfl

/-- C5: a cursor is initialised at most once.  `deliver_prime` allocates
a channel and spawns a Stage exactly when the cursor's write slot holds
the invalid sentinel, and the new cursor's write slot is a real fd, so
every later call on the same cursor takes the plain-write branch with no
second allocation or spawn (the loops therefore spawn at most one child,
and none after initialisation); for the range `[2, 2]` the driver's
whole-run output is exactly `prime 2` and zero Stages are spawned. -/
theorem cursor_initialised_once (n down : Nat) (cur : Int × Int)
    (xs : List Nat) :
    (cur.2 = PIPE_INVALID →
      deliver_prime n down cur =
        ([Ev.pipeCreate down, Ev.spawnStage down n], (rfd down, wfd down)) ∧
      ¬ (rfd down, wfd down).2 = PIPE_INVALID) ∧
    (¬ cur.2 = PIPE_INVALID →
      deliver_prime n down cur = ([Ev.writeVal cur.2 n], cur) ∧
      spawnCount (run_stage_loop n down cur xs).1 = 0 ∧
      spawnCount (drive_loop cur xs).1 = 0) ∧
    spawnCount (run_stage_loop n down cur xs).1 ≤ 1 ∧
    spawnCount (drive_loop cur xs).1 ≤ 1 ∧
    prints (main_events 2) = [2] ∧
    spawnCount (main_events 2) = 0 := by
  refine ⟨fun h => ⟨deliver_prime_uninit h, wfd_ne_invalid down⟩,
    fun h => ⟨deliver_prime_init h, run_stage_loop_spawn_init n down xs cur h,
      drive_loop_spawn_init xs cur h⟩, ?_, ?_, by decide, by decide⟩
  · by_cases h : cur.2 = PIPE_INVALID
    · rw [run_stage_loop_spawn_uninit n down xs cur h]
      split <;> omega
    · rw [run_stage_loop_spawn_init n down xs cur h]
      omega
  · by_cases h : cur.2 = PIPE_INVALID
    · rw [drive_loop_spawn_uninit xs cur h]
      split <;> omega
    · rw [drive_loop_spawn_init xs cur h]
      omega

/-- Witness for C5: concrete first call on an uninitialised cursor, a
later plain write, and the `[2, 2]` scenario. -/
theorem cursor_initialised_once_witness :
    deliver_prime 3 1 (PIPE_INVALID, PIPE_INVALID) =
      ([Ev.pipeCreate 1, Ev.spawnStage 1 3], (rfd 1, wfd 1)) ∧
    deliver_prime 5 1 (rfd 1, wfd 1) = ([Ev.writeVal (wfd 1) 5], (rfd 1, wfd 1)) ∧
    prints (main_events 2) = [2] ∧
    spawnCount (main_events 2) = 0 :=
  ⟨((cursor_initialised_once 3 1 (PIPE_INVALID, PIPE_INVALID) []).1
      (by decide)).1,
   ((cursor_initialised_once 5 1 (rfd 1, wfd 1) []).2.1 (by decide)).1,
   (cursor_initialised_once 2 1 (PIPE_INVALID, PIPE_INVALID) []).2.2.2.2.1,
   (cursor_initialised_once 2 1 (PIPE_INVALID, PIPE_INVALID) []).2.2.2.2.2⟩

/-- C8: every failure is terminal for the worker observing it, with no
retry.  A `pipe()` failure makes the worker log the candidate value in
flight and exit 1; a `fork()` failure likewise; a failed downstream
`write` (return value `<= 0`) makes the writer exit 1 with no retry.  On
the success path the error-aware semantics agrees with `deliver_prime`. -/
theorem failure_is_terminal (n down : Nat) (cur : Int × Int)
    (pipeOk forkOk : Bool) (writeRet : Int) :
    (cur.2 = PIPE_INVALID → pipeOk = false →
      deliver_prime_err n down cur pipeOk forkOk writeRet =
        Except.error ([Ev.logPipeErr n], 1)) ∧
    (cur.2 = PIPE_INVALID → forkOk = false →
      deliver_prime_err n down cur true forkOk writeRet =
        Except.error ([Ev.pipeCreate down, Ev.logForkErr n], 1)) ∧
    (¬ cur.2 = PIPE_INVALID → writeRet ≤ 0 →
      deliver_prime_err n down cur pipeOk forkOk writeRet =
        Except.error ([], 1)) ∧
    (¬ cur.2 = PIPE_INVALID → 0 < writeRet →
      deliver_prime_err n down cur pipeOk forkOk writeRet =
        Except.ok (deliver_prime n down cur)) ∧
    (cur.2 = PIPE_INVALID →
      deliver_prime_err n down cur true true writeRet =
        Except.ok (deliver_prime n down cur)) := by
  refine ⟨?_, ?_, ?_, ?_, ?_⟩
  · intro h hp
    unfold deliver_prime_err
    rw [if_pos h, if_pos hp]
  · intro h hf
    unfold deliver_prime_err
    rw [if_pos h]
    subst hf
    rfl
  · intro h hw
    unfold deliver_prime_err
    rw [if_neg h, if_pos hw]
  · intro h hw
    unfold deliver_prime_err
    rw [if_neg h, if_neg (by omega), deliver_prime_init h]
  · intro h
    unfold deliver_prime_err
    rw [if_pos h, deliver_prime_uninit h]
    rfl

/-- Witness for C8: a pipe failure at candidate 7, a fork failure at 11,
and a write failure, each terminal with exit status 1. -/
theorem failure_is_terminal_witness :
    deliver_prime_err 7 2 (PIPE_INVALID, PIPE_INVALID) false true 4 =
      Except.error ([Ev.logPipeErr 7], 1) ∧
    deliver_prime_err 11 2 (PIPE_INVALID, PIPE_INVALID) true false 4 =
      Except.error ([Ev.pipeCreate 2, Ev.logForkErr 11], 1) ∧
    deliver_prime_err 13 2 (rfd 2, wfd 2) true true 0 =
      Except.error ([], 1) :=
  ⟨(failure_is_terminal 7 2 (PIPE_INVALID, PIPE_INVALID) false true 4).1
      (by decide) (by decide),
   (failure_is_terminal 11 2 (PIPE_INVALID, PIPE_INVALID) true false 4).2.1
      (by decide) (by decide),
   (failure_is_terminal 13 2 (rfd 2, wfd 2) true true 0).2.2.1
      (by decide) (by decide)⟩

/-! ### Closed file descriptors -/

def closeVal : Ev → Option Int
  | Ev.closeFd fd => some fd
  | _ => none

/-- The fds an event list passes to `close`, in order. -/
def closedFds (evs : List Ev) : List Int :=
  evs.filterMap closeVal

theorem closedFds_append (l1 l2 : List Ev) :
    closedFds (l1 ++ l2) = closedFds l1 ++ closedFds l2 :=
  List.filterMap_append l1 l2 closeVal

theorem loopEv_closeVal {e : Ev} (h : loopEv e = true) : closeVal e = none := by
  cases e <;> simp_all [loopEv, closeVal]

theorem closedFds_run_stage_loop (n down : Nat) (xs : List Nat)
    (cur : Int × Int) : closedFds (run_stage_loop n down cur xs).1 = [] := by
  unfold closedFds
  rw [List.filterMap_eq_nil]
  intro e he
  exact loopEv_closeVal (run_stage_loop_loopEv n down xs cur e he)

theorem closedFds_drive_loop (xs : List Nat) (cur : Int × Int) :
    closedFds (drive_loop cur xs).1 = [] := by
  unfold closedFds
  rw [List.filterMap_eq_nil]
  intro e he
  exact loopEv_closeVal (drive_loop_loopEv xs cur e he)

theorem closedFds_close_pipe_if_valid (p : Int) :
    closedFds (close_pipe_if_valid p) =
      if p = PIPE_INVALID then [] else [p] := by
  unfold close_pipe_if_valid
  split <;> rfl

/-- The fds a Stage closes: the inherited upstream write copy at birth,
then at teardown the upstream read end and — if the downstream cursor was
initialised — the downstream pair. -/
theorem closedFds_stage_events_cases (n c : Nat) (xs : List Nat) :
    closedFds (stage_events n c xs) = [wfd c, rfd c] ∨
    closedFds (stage_events n c xs) =
      [wfd c, rfd c, rfd (c + 1), wfd (c + 1)] := by
  have hbase : closedFds (stage_events n c xs) =
      wfd c ::
        (closedFds (run_stage_loop n (c + 1) (PIPE_INVALID, PIPE_INVALID) xs).1 ++
          (rfd c ::
            (closedFds (close_pipe_if_valid
              (run_stage_loop n (c + 1) (PIPE_INVALID, PIPE_INVALID) xs).2.1) ++
             closedFds (close_pipe_if_valid
              (run_stage_loop n (c + 1) (PIPE_INVALID, PIPE_INVALID) xs).2.2)))) := by
    rw [stage_events_def]
    show wfd c :: closedFds (_ ++ Ev.eof :: (close_pipe_if_valid (rfd c) ++ _ ++ _ ++ [Ev.waitChild, Ev.exitCode 0])) = _
    rw [closedFds_append]
    show wfd c :: (_ ++ closedFds (close_pipe_if_valid (rfd c) ++ _ ++ _ ++ [Ev.waitChild, Ev.exitCode 0])) = _
    rw [closedFds_append, closedFds_append, closedFds_append,
      closedFds_close_pipe_if_valid (rfd c), if_neg (rfd_ne_invalid c)]
    simp [List.append_assoc]
    rfl
  rcases run_stage_loop_cursor n (c + 1) xs (PIPE_INVALID, PIPE_INVALID)
    with hc | hc
  · left
    rw [hbase, closedFds_run_stage_loop, hc]
    rfl
  · right
    rw [hbase, closedFds_run_stage_loop, hc,
      closedFds_close_pipe_if_valid, closedFds_close_pipe_if_valid]
    rw [if_neg (rfd_ne_invalid (c + 1)), if_neg (wfd_ne_invalid (c + 1))]
    rfl

/-- The fds the driver closes: exactly its final cursor's two slots,
unguarded. -/
theorem closedFds_main_events_cases (N : Nat) :
    closedFds (main_events N) = [PIPE_INVALID, PIPE_INVALID] ∨
    closedFds (main_events N) = [rfd 1, wfd 1] := by
  have hbase : closedFds (main_events N) =
      closedFds (drive_loop (PIPE_INVALID, PIPE_INVALID) (candidateRange N)).1 ++
        [(drive_loop (PIPE_INVALID, PIPE_INVALID) (candidateRange N)).2.1,
         (drive_loop (PIPE_INVALID, PIPE_INVALID) (candidateRange N)).2.2] := by
    rw [main_events_def]
    show closedFds (_ ++ [Ev.closeFd _, Ev.closeFd _, Ev.waitChild, Ev.exitCode 0]) = _
    rw [closedFds_append]
    rfl
  rcases drive_loop_cursor (candidateRange N) (PIPE_INVALID, PIPE_INVALID)
    with hc | hc
  · left
    rw [hbase, closedFds_drive_loop, hc]
    rfl
  · right
    rw [hbase, closedFds_drive_loop, hc]
    rfl

/-- C9 counterexample: the claim asserts a guarded no-op teardown for
*every* cursor owner, the Driver included; but with range `[2, 2]` no
Stage is ever spawned and the Driver's teardown nevertheless issues two
raw `close(-1)` calls on the sentinel — its closes are not guarded. -/
theorem driver_unguarded_close_counterexample :
    main_events 2 = [Ev.print 2, Ev.closeFd PIPE_INVALID,
      Ev.closeFd PIPE_INVALID, Ev.waitChild, Ev.exitCode 0] ∧
    spawnCount (main_events 2) = 0 ∧
    Ev.closeFd PIPE_INVALID ∈ main_events 2 ∧
    closedFds (main_events 2) = [PIPE_INVALID, PIPE_INVALID] := by
  refine ⟨by decide, by decide, by decide, by decide⟩

theorem count_pair_le_one {fd a b : Int} (hab : ¬ a = b) :
    List.count fd [a, b] ≤ 1 := by
  simp only [List.count_cons, List.count_nil, beq_iff_eq]
  split <;> split <;> omega

theorem count_pair_ne {fd a b : Int} (ha : ¬ a = fd) (hb : ¬ b = fd) :
    List.count fd [a, b] = 0 := by
  simp only [List.count_cons, List.count_nil, beq_iff_eq]
  rw [if_neg ha, if_neg hb]

/-- C9 (amended): teardown of an uninitialised or already-closed cursor
is a guarded no-op for Stage owners — `close_pipe_if_valid` drops the
sentinel, a Stage never passes `-1` to `close` and never closes the same
fd twice; the Driver's teardown closes its cursor slots *unguarded* (raw
`close`), so with no Stage spawned it passes the sentinel to `close`
(kernel error return, ignored), but it too never releases a real
endpoint twice. -/
theorem teardown_close_discipline (N n c : Nat) (xs : List Nat) :
    close_pipe_if_valid PIPE_INVALID = [] ∧
    PIPE_INVALID ∉ closedFds (stage_events n c xs) ∧
    (closedFds (stage_events n c xs)).Nodup ∧
    (∀ fd : Int, ¬ fd = PIPE_INVALID →
      List.count fd (closedFds (main_events N)) ≤ 1) := by
  refine ⟨rfl, ?_, ?_, ?_⟩
  · rcases closedFds_stage_events_cases n c xs with h | h <;> rw [h] <;>
      simp [List.mem_cons, wfd, rfd, PIPE_INVALID] <;> omega
  · rcases closedFds_stage_events_cases n c xs with h | h <;> rw [h] <;>
      simp [List.nodup_cons, List.mem_cons, wfd, rfd] <;> omega
  · intro fd hfd
    rcases closedFds_main_events_cases N with h | h <;> rw [h]
    · have h1 : ¬ PIPE_INVALID = fd := fun he => hfd he.symm
      rw [count_pair_ne h1 h1]
      omega
    · refine count_pair_le_one ?_
      unfold rfd wfd
      omega

/-! ### C7: what the spawning context does right after a spawn -/

/-- The property claimed by the spec for the initialising branch: each
spawn is immediately followed by the spawner closing its copy of the new
channel's read end. -/
def closes_read_immediately (t : List Ev) : Bool :=
  (List.range t.length).all fun i =>
    match t.get? i with
    | some (Ev.spawnStage c _) => t.get? (i + 1) == some (Ev.closeFd (rfd c))
    | _ => true

/-- C7 counterexample: in the run with bound 5 the driver initialises its
cursor and spawns the first Stage (events 1–2 of its trace), and its very
next action is the forward `write(5)` — not a close of its copy of the
new channel's read end, which stays open until teardown (event 4). -/
theorem spawner_keeps_read_open_counterexample :
    (main_events 5).get? 2 = some (Ev.spawnStage 1 3) ∧
    (main_events 5).get? 3 = some (Ev.writeVal (wfd 1) 5) ∧
    ¬ (main_events 5).get? 3 = some (Ev.closeFd (rfd 1)) ∧
    closes_read_immediately (main_events 5) = false ∧
    (main_events 5).get? 4 = some (Ev.closeFd (rfd 1)) := by
  refine ⟨by decide, by decide, by decide, by decide, by decide⟩

/-- C7 (amended): on the initialising branch the spawning context closes
*neither* endpoint of the new channel: it emits exactly the channel
creation and the spawn, stores both descriptors in its cursor — the
write end is reused for future forwards, the read copy stays open and is
closed only at teardown — and no close of any endpoint happens anywhere
in a forwarding loop. -/
theorem spawn_branch_frame (n down : Nat) (cur : Int × Int)
    (h : cur.2 = PIPE_INVALID) :
    (deliver_prime n down cur).1 = [Ev.pipeCreate down, Ev.spawnStage down n] ∧
    (deliver_prime n down cur).2 = (rfd down, wfd down) ∧
    closedFds (deliver_prime n down cur).1 = [] ∧
    (∀ (xs : List Nat) (c2 : Int × Int),
      closedFds (run_stage_loop n down c2 xs).1 = []) ∧
    (∀ (xs : List Nat) (c2 : Int × Int),
      closedFds (drive_loop c2 xs).1 = []) := by
  rw [deliver_prime_uninit h]
  exact ⟨rfl, rfl, rfl,
    fun xs c2 => closedFds_run_stage_loop n down xs c2,
    fun xs c2 => closedFds_drive_loop xs c2⟩

/-- Witness for C7's amended statement on a concrete uninitialised
cursor. -/
theorem spawn_branch_frame_witness :
    ((PIPE_INVALID, PIPE_INVALID) : Int × Int).2 = PIPE_INVALID ∧
    (deliver_prime 3 1 (PIPE_INVALID, PIPE_INVALID)).1 =
      [Ev.pipeCreate 1, Ev.spawnStage 1 3] ∧
    closedFds (run_stage_loop 3 2 (PIPE_INVALID, PIPE_INVALID) [5, 7, 9]).1 = [] :=
  ⟨by decide,
   (spawn_branch_frame 3 1 (PIPE_INVALID, PIPE_INVALID) (by decide)).1,
   (spawn_branch_frame 3 2 (PIPE_INVALID, PIPE_INVALID) (by decide)).2.2.2.1
     [5, 7, 9] (PIPE_INVALID, PIPE_INVALID)⟩

/-! ### Per-process traces -/

theorem proc_trace_zero (N : Nat) : proc_trace N 0 = main_events N := rfl

theorem proc_trace_succ_some {N e : Nat} {s : Nat × List Nat}
    (h : (chainStages START_PRIME (candidateRange N)).get? (e + 1) = some s) :
    proc_trace N (e + 1) = stage_events s.1 (e + 1) s.2 := by
  show (match (chainStages START_PRIME (candidateRange N)).get? (e + 1) with
        | some s => stage_events s.1 (e + 1) s.2
        | none => []) = _
  rw [h]

theorem proc_trace_succ_none {N e : Nat}
    (h : (chainStages START_PRIME (candidateRange N)).get? (e + 1) = none) :
    proc_trace N (e + 1) = [] := by
  show (match (chainStages START_PRIME (candidateRange N)).get? (e + 1) with
        | some s => stage_events s.1 (e + 1) s.2
        | none => []) = _
  rw [h]

theorem run_stage_loop_not_wait (n down : Nat) (xs : List Nat)
    (cur : Int × Int) : Ev.waitChild ∉ (run_stage_loop n down cur xs).1 := by
  intro hm
  have := run_stage_loop_loopEv n down xs cur _ hm
  simp [loopEv] at this

theorem run_stage_loop_not_exit (n down : Nat) (xs : List Nat)
    (cur : Int × Int) (k : Nat) :
    Ev.exitCode k ∉ (run_stage_loop n down cur xs).1 := by
  intro hm
  have := run_stage_loop_loopEv n down xs cur _ hm
  simp [loopEv] at this

theorem drive_loop_not_wait (xs : List Nat) (cur : Int × Int) :
    Ev.waitChild ∉ (drive_loop cur xs).1 := by
  intro hm
  have := drive_loop_loopEv xs cur _ hm
  simp [loopEv] at this

theorem drive_loop_not_exit (xs : List Nat) (cur : Int × Int) (k : Nat) :
    Ev.exitCode k ∉ (drive_loop cur xs).1 := by
  intro hm
  have := drive_loop_loopEv xs cur _ hm
  simp [loopEv] at this

theorem close_pipe_if_valid_mem {e : Ev} {p : Int}
    (h : e ∈ close_pipe_if_valid p) : e = Ev.closeFd p := by
  unfold close_pipe_if_valid at h
  by_cases h2 : p = PIPE_INVALID
  · rw [if_pos h2] at h
    simp at h
  · rw [if_neg h2] at h
    simpa using h

theorem spawnCount_cons_closeFd (fd : Int) (t : List Ev) :
    spawnCount (Ev.closeFd fd :: t) = spawnCount t := rfl

theorem spawnCount_cons_print (m : Nat) (t : List Ev) :
    spawnCount (Ev.print m :: t) = spawnCount t := rfl

theorem spawnCount_cons_eof (t : List Ev) :
    spawnCount (Ev.eof :: t) = spawnCount t := rfl

theorem spawnCount_close_pipe_if_valid (p : Int) :
    spawnCount (close_pipe_if_valid p) = 0 := by
  unfold close_pipe_if_valid
  split <;> rfl

/-- The driver's spawn count is that of its loop. -/
theorem spawnCount_main_events (N : Nat) :
    spawnCount (main_events N) =
      spawnCount (drive_loop (PIPE_INVALID, PIPE_INVALID) (candidateRange N)).1 := by
  rw [main_events_def, spawnCount_cons_print, spawnCount_append]
  rfl

/-- A Stage's spawn count is that of its loop. -/
theorem spawnCount_stage_events (n c : Nat) (xs : List Nat) :
    spawnCount (stage_events n c xs) =
      spawnCount (run_stage_loop n (c + 1) (PIPE_INVALID, PIPE_INVALID) xs).1 := by
  rw [stage_events_def, spawnCount_cons_closeFd, spawnCount_cons_print,
    spawnCount_append, spawnCount_cons_eof, spawnCount_append,
    spawnCount_append, spawnCount_append,
    spawnCount_close_pipe_if_valid, spawnCount_close_pipe_if_valid,
    spawnCount_close_pipe_if_valid]
  rfl

/-- C6: every live worker's trace ends with exactly one `wait` followed
by its `exit`, with no `wait` or `exit` anywhere earlier, and each worker
spawns at most one child — spawning one exactly when the next-depth Stage
exists.  Hence every spawned worker is joined exactly once by its spawner
before the spawner terminates, and after the driver's own exit no
outstanding unjoined worker remains. -/
theorem workers_joined (N d : Nat) (h : ¬ proc_trace N d = []) :
    ∃ pre, proc_trace N d = pre ++ [Ev.waitChild, Ev.exitCode 0] ∧
      Ev.waitChild ∉ pre ∧ (∀ k, Ev.exitCode k ∉ pre) ∧
      spawnCount (proc_trace N d) ≤ 1 ∧
      (spawnCount (proc_trace N d) = 1 ↔
        ¬ (chainStages START_PRIME (candidateRange N)).get? (d + 1) = none) := by
  cases d with
  | zero =>
    refine ⟨Ev.print START_PRIME ::
      ((drive_loop (PIPE_INVALID, PIPE_INVALID) (candidateRange N)).1 ++
       [Ev.closeFd (drive_loop (PIPE_INVALID, PIPE_INVALID) (candidateRange N)).2.1,
        Ev.closeFd (drive_loop (PIPE_INVALID, PIPE_INVALID) (candidateRange N)).2.2]),
      ?_, ?_, ?_, ?_, ?_⟩
    · rw [proc_trace_zero, main_events_def]
      simp [List.append_assoc]
    · intro hm
      rcases List.mem_cons.mp hm with h1 | h1
      · exact Ev.noConfusion h1
      rcases List.mem_append.mp h1 with h2 | h2
      · exact drive_loop_not_wait _ _ h2
      rcases List.mem_cons.mp h2 with h3 | h3
      · exact Ev.noConfusion h3
      rcases List.mem_cons.mp h3 with h4 | h4
      · exact Ev.noConfusion h4
      · simp at h4
    · intro k hm
      rcases List.mem_cons.mp hm with h1 | h1
      · exact Ev.noConfusion h1
      rcases List.mem_append.mp h1 with h2 | h2
      · exact drive_loop_not_exit _ _ k h2
      rcases List.mem_cons.mp h2 with h3 | h3
      · exact Ev.noConfusion h3
      rcases List.mem_cons.mp h3 with h4 | h4
      · exact Ev.noConfusion h4
      · simp at h4
    · rw [proc_trace_zero, spawnCount_main_events,
        drive_loop_spawn_uninit (candidateRange N) (PIPE_INVALID, PIPE_INVALID) rfl]
      split <;> omega
    · rw [proc_trace_zero, spawnCount_main_events,
        drive_loop_spawn_uninit (candidateRange N) (PIPE_INVALID, PIPE_INVALID) rfl]
      have hsucc :=
        chainStages_get_succ (chainStages_zero START_PRIME (candidateRange N))
      cases hf : stageFilter START_PRIME (candidateRange N) with
      | nil =>
        rw [hsucc]
        simp
        rw [hf]
      | cons q rs =>
        rw [hsucc]
        simp
        rw [hf]
        simp
  | succ e =>
    cases hst : (chainStages START_PRIME (candidateRange N)).get? (e + 1) with
    | none => exact absurd (proc_trace_succ_none hst) h
    | some s =>
      obtain ⟨p, ins⟩ := s
      have htr : proc_trace N (e + 1) = stage_events p (e + 1) ins :=
        proc_trace_succ_some hst
      refine ⟨Ev.closeFd (wfd (e + 1)) :: Ev.print p ::
        ((run_stage_loop p (e + 1 + 1) (PIPE_INVALID, PIPE_INVALID) ins).1 ++
          Ev.eof ::
          (close_pipe_if_valid (rfd (e + 1)) ++
           close_pipe_if_valid
             (run_stage_loop p (e + 1 + 1) (PIPE_INVALID, PIPE_INVALID) ins).2.1 ++
           close_pipe_if_valid
             (run_stage_loop p (e + 1 + 1) (PIPE_INVALID, PIPE_INVALID) ins).2.2)),
        ?_, ?_, ?_, ?_, ?_⟩
      · rw [htr, stage_events_def]
        simp [List.append_assoc]
      · intro hm
        rcases List.mem_cons.mp hm with h1 | h1
        · exact Ev.noConfusion h1
        rcases List.mem_cons.mp h1 with h2 | h2
        · exact Ev.noConfusion h2
        rcases List.mem_append.mp h2 with h3 | h3
        · exact run_stage_loop_not_wait _ _ _ _ h3
        rcases List.mem_cons.mp h3 with h4 | h4
        · exact Ev.noConfusion h4
        rcases List.mem_append.mp h4 with h5 | h5
        · rcases List.mem_append.mp h5 with h6 | h6
          · exact Ev.noConfusion (close_pipe_if_valid_mem h6)
          · exact Ev.noConfusion (close_pipe_if_valid_mem h6)
        · exact Ev.noConfusion (close_pipe_if_valid_mem h5)
      · intro k hm
        rcases List.mem_cons.mp hm with h1 | h1
        · exact Ev.noConfusion h1
        rcases List.mem_cons.mp h1 with h2 | h2
        · exact Ev.noConfusion h2
        rcases List.mem_append.mp h2 with h3 | h3
        · exact run_stage_loop_not_exit _ _ _ _ k h3
        rcases List.mem_cons.mp h3 with h4 | h4
        · exact Ev.noConfusion h4
        rcases List.mem_append.mp h4 with h5 | h5
        · rcases List.mem_append.mp h5 with h6 | h6
          · exact Ev.noConfusion (close_pipe_if_valid_mem h6)
          · exact Ev.noConfusion (close_pipe_if_valid_mem h6)
        · exact Ev.noConfusion (close_pipe_if_valid_mem h5)
      · rw [htr, spawnCount_stage_events,
          run_stage_loop_spawn_uninit p (e + 1 + 1) ins
            (PIPE_INVALID, PIPE_INVALID) rfl]
        split <;> omega
      · rw [htr, spawnCount_stage_events,
          run_stage_loop_spawn_uninit p (e + 1 + 1) ins
            (PIPE_INVALID, PIPE_INVALID) rfl]
        have hsucc := chainStages_get_succ hst
        cases hf : stageFilter p ins with
        | nil =>
          rw [hsucc]
          simp
          rw [hf]
        | cons q rs =>
          rw [hsucc]
          simp
          rw [hf]
          simp

/-- Witness for C6 at `N = 10`, depth 1 (the Stage of prime 3, which
spawns the Stage of prime 5 and joins it before exiting). -/
theorem workers_joined_witness :
    ¬ proc_trace 10 1 = [] ∧
    (∃ pre, proc_trace 10 1 = pre ++ [Ev.waitChild, Ev.exitCode 0] ∧
      Ev.waitChild ∉ pre ∧ (∀ k, Ev.exitCode k ∉ pre) ∧
      spawnCount (proc_trace 10 1) ≤ 1 ∧
      (spawnCount (proc_trace 10 1) = 1 ↔
        ¬ (chainStages START_PRIME (candidateRange 10)).get? 2 = none)) :=
  ⟨by decide, workers_joined 10 1 (by decide)⟩

/-! ### Inherited descriptor tables (C10)

`fork` gives the child a copy of the parent's descriptor table.  We track
the table by replaying a trace prefix: `pipe()` opens both ends,
`close(fd)` removes the fd, everything else leaves the table unchanged.
The child's initial table is the parent's table at the moment of the
spawn, i.e. after the prefix of the parent's trace up to (excluding) the
`fork`. -/

/-- Effect of one event on an open-descriptor table. -/
def applyEv (s : List Int) (e : Ev) : List Int :=
  match e with
  | Ev.pipeCreate c => rfd c :: wfd c :: s
  | Ev.closeFd fd => s.erase fd
  | _ => s

/-- Replay a sequence of events on a table. -/
def applyEvs (s : List Int) (evs : List Ev) : List Int :=
  evs.foldl applyEv s

/-- The prefix of a trace strictly before its first `fork`. -/
def takeUntilSpawn : List Ev → List Ev
  | [] => []
  | e :: t => if isSpawn e then [] else e :: takeUntilSpawn t

/-- The descriptor table a process starts with: the driver starts with no
pipe descriptors; the Stage at depth `d + 1` starts with the table of its
spawner (depth `d`) at the moment of the fork. -/
def inheritedSet (N : Nat) : Nat → List Int
  | 0 => []
  | d + 1 => applyEvs (inheritedSet N d) (takeUntilSpawn (proc_trace N d))

theorem applyEvs_cons (s : List Int) (e : Ev) (t : List Ev) :
    applyEvs s (e :: t) = applyEvs (applyEv s e) t := rfl

theorem takeUntilSpawn_cons_recv (v : Nat) (t : List Ev) :
    takeUntilSpawn (Ev.recv v :: t) = Ev.recv v :: takeUntilSpawn t := rfl

theorem takeUntilSpawn_cons_print (m : Nat) (t : List Ev) :
    takeUntilSpawn (Ev.print m :: t) = Ev.print m :: takeUntilSpawn t := rfl

theorem takeUntilSpawn_cons_closeFd (fd : Int) (t : List Ev) :
    takeUntilSpawn (Ev.closeFd fd :: t) = Ev.closeFd fd :: takeUntilSpawn t := rfl

theorem takeUntilSpawn_cons_pipeCreate (c : Nat) (t : List Ev) :
    takeUntilSpawn (Ev.pipeCreate c :: t) =
      Ev.pipeCreate c :: takeUntilSpawn t := rfl

theorem takeUntilSpawn_cons_spawn (c v : Nat) (t : List Ev) :
    takeUntilSpawn (Ev.spawnStage c v :: t) = [] := rfl

/-- Cutting at the first fork never looks past a prefix that contains
one. -/
theorem takeUntilSpawn_append_of_spawn :
    ∀ (l1 l2 : List Ev), (∃ c v, Ev.spawnStage c v ∈ l1) →
      takeUntilSpawn (l1 ++ l2) = takeUntilSpawn l1 := by
  intro l1
  induction l1 with
  | nil =>
    intro l2 h
    obtain ⟨c, v, hm⟩ := h
    cases hm
  | cons e t ih =>
    intro l2 h
    obtain ⟨c, v, hm⟩ := h
    show takeUntilSpawn (e :: (t ++ l2)) = takeUntilSpawn (e :: t)
    by_cases hsp : isSpawn e = true
    · unfold takeUntilSpawn
      rw [if_pos hsp, if_pos hsp]
    · unfold takeUntilSpawn
      rw [if_neg hsp, if_neg hsp]
      have hm2 : Ev.spawnStage c v ∈ t := by
        rcases List.mem_cons.mp hm with h1 | h1
        · rw [← h1] at hsp
          exact absurd rfl hsp
        · exact h1
      rw [ih l2 ⟨c, v, hm2⟩]

theorem exists_spawn_of_spawnCount {l : List Ev} (h : ¬ spawnCount l = 0) :
    ∃ c v, Ev.spawnStage c v ∈ l := by
  unfold spawnCount at h
  have hne : ¬ l.filter isSpawn = [] := by
    intro he
    rw [he] at h
    exact h rfl
  obtain ⟨e, he⟩ := List.exists_mem_of_ne_nil _ hne
  obtain ⟨hmem, hsp⟩ := List.mem_filter.mp he
  cases e <;> simp [isSpawn] at hsp
  exact ⟨_, _, hmem⟩

/-- Replaying a Stage loop's prefix up to its fork on a table `s` opens
exactly the new channel's two ends (the fork requires a survivor). -/
theorem stage_loop_until_spawn (n down : Nat) :
    ∀ (xs : List Nat), ¬ stageFilter n xs = [] →
      ∀ s : List Int,
        applyEvs s (takeUntilSpawn
          (run_stage_loop n down (PIPE_INVALID, PIPE_INVALID) xs).1) =
          rfd down :: wfd down :: s := by
  intro xs
  induction xs with
  | nil =>
    intro hne
    exact absurd rfl hne
  | cons v rest ih =>
    intro hne s
    unfold run_stage_loop
    by_cases h : v % n = 0
    · rw [if_pos h]
      show applyEvs s (takeUntilSpawn (Ev.recv v ::
        (run_stage_loop n down (PIPE_INVALID, PIPE_INVALID) rest).1)) = _
      rw [takeUntilSpawn_cons_recv, applyEvs_cons]
      refine ih ?_ s
      intro hrest
      apply hne
      show (v :: rest).filter (fun v => decide (v % n ≠ 0)) = []
      rw [List.filter_cons_of_neg (by simpa using h)]
      exact hrest
    · rw [if_neg h]
      show applyEvs s (takeUntilSpawn (Ev.recv v ::
        ((deliver_prime v down (PIPE_INVALID, PIPE_INVALID)).1 ++
         (run_stage_loop n down
           (deliver_prime v down (PIPE_INVALID, PIPE_INVALID)).2 rest).1))) = _
      rw [deliver_prime_uninit rfl]
      show applyEvs s (takeUntilSpawn (Ev.recv v :: Ev.pipeCreate down ::
        Ev.spawnStage down v ::
        (run_stage_loop n down (rfd down, wfd down) rest).1)) = _
      rw [takeUntilSpawn_cons_recv, takeUntilSpawn_cons_pipeCreate,
        takeUntilSpawn_cons_spawn]
      rfl

/-- Same for the driver's loop. -/
theorem drive_loop_until_spawn :
    ∀ (xs : List Nat), ¬ stageFilter START_PRIME xs = [] →
      ∀ s : List Int,
        applyEvs s (takeUntilSpawn
          (drive_loop (PIPE_INVALID, PIPE_INVALID) xs).1) =
          rfd 1 :: wfd 1 :: s := by
  intro xs
  induction xs with
  | nil =>
    intro hne
    exact absurd rfl hne
  | cons v rest ih =>
    intro hne s
    unfold drive_loop
    by_cases h : v % START_PRIME = 0
    · rw [if_pos h]
      refine ih ?_ s
      intro hrest
      apply hne
      show (v :: rest).filter (fun v => decide (v % START_PRIME ≠ 0)) = []
      rw [List.filter_cons_of_neg (by simpa using h)]
      exact hrest
    · rw [if_neg h]
      show applyEvs s (takeUntilSpawn
        ((deliver_prime v 1 (PIPE_INVALID, PIPE_INVALID)).1 ++
         (drive_loop (deliver_prime v 1 (PIPE_INVALID, PIPE_INVALID)).2 rest).1)) = _
      rw [deliver_prime_uninit rfl]
      show applyEvs s (takeUntilSpawn (Ev.pipeCreate 1 :: Ev.spawnStage 1 v ::
        (drive_loop (rfd 1, wfd 1) rest).1)) = _
      rw [takeUntilSpawn_cons_pipeCreate, takeUntilSpawn_cons_spawn]
      rfl

/-- The descriptor table a Stage at depth `d ≥ 1` is born with: its own
upstream channel's two ends (freshly created by the spawner) plus one
open read-end copy of every ancestor's upstream channel — and no other
write end: each inherited upstream write copy was already closed by the
intermediate Stages at their own births before they forked further. -/
theorem inheritedSet_char (N : Nat) :
    ∀ d : Nat, 1 ≤ d →
      ¬ (chainStages START_PRIME (candidateRange N)).get? d = none →
      inheritedSet N d =
        rfd d :: wfd d :: ((List.range' 1 (d - 1)).reverse.map rfd) := by
  intro d
  induction d with
  | zero =>
    intro h
    omega
  | succ e ih =>
    intro _ hst
    obtain ⟨s, hs⟩ : ∃ s,
        (chainStages START_PRIME (candidateRange N)).get? (e + 1) = some s := by
      cases hx : (chainStages START_PRIME (candidateRange N)).get? (e + 1) with
      | none => exact absurd hx hst
      | some s => exact ⟨s, rfl⟩
    obtain ⟨p, ins⟩ := s
    cases e with
    | zero =>
      obtain ⟨q, rest, hq0, hfil⟩ := chainStages_succ_inv hs
      have hz := chainStages_zero START_PRIME (candidateRange N)
      rw [hz] at hq0
      simp only [Option.some.injEq, Prod.mk.injEq] at hq0
      obtain ⟨hq1, hq2⟩ := hq0
      subst hq1
      subst hq2
      have hfil' : ¬ stageFilter START_PRIME (candidateRange N) = [] := by
        rw [hfil]
        simp
      show applyEvs (inheritedSet N 0) (takeUntilSpawn (proc_trace N 0)) = _
      rw [proc_trace_zero, main_events_def, takeUntilSpawn_cons_print]
      have hcnt : ¬ spawnCount
          (drive_loop (PIPE_INVALID, PIPE_INVALID) (candidateRange N)).1 = 0 := by
        rw [drive_loop_spawn_uninit (candidateRange N)
          (PIPE_INVALID, PIPE_INVALID) rfl, if_neg hfil']
        simp
      rw [takeUntilSpawn_append_of_spawn _ _ (exists_spawn_of_spawnCount hcnt),
        applyEvs_cons, drive_loop_until_spawn (candidateRange N) hfil' _]
      rfl
    | succ f =>
      obtain ⟨pp, pins, hpar, hfil⟩ := chainStages_succ_inv hs
      have ihh := ih (by omega) (by rw [hpar]; simp)
      have htr : proc_trace N (f + 1) = stage_events pp (f + 1) pins :=
        proc_trace_succ_some hpar
      have hfil' : ¬ stageFilter pp pins = [] := by
        rw [hfil]
        simp
      show applyEvs (inheritedSet N (f + 1))
        (takeUntilSpawn (proc_trace N (f + 1))) = _
      rw [htr, stage_events_def, takeUntilSpawn_cons_closeFd,
        takeUntilSpawn_cons_print]
      have hcnt : ¬ spawnCount (run_stage_loop pp (f + 1 + 1)
          (PIPE_INVALID, PIPE_INVALID) pins).1 = 0 := by
        rw [run_stage_loop_spawn_uninit pp (f + 1 + 1) pins
          (PIPE_INVALID, PIPE_INVALID) rfl, if_neg hfil']
        simp
      rw [takeUntilSpawn_append_of_spawn _ _ (exists_spawn_of_spawnCount hcnt),
        applyEvs_cons, applyEvs_cons,
        stage_loop_until_spawn pp (f + 1 + 1) pins hfil' _]
      show rfd (f + 1 + 1) :: wfd (f + 1 + 1) ::
        ((inheritedSet N (f + 1)).erase (wfd (f + 1))) = _
      rw [ihh]
      rw [List.erase_cons_tail (by
        simp only [beq_iff_eq]
        unfold rfd wfd
        omega), List.erase_cons_head]
      simp only [Nat.add_sub_cancel]
      have e1 : List.range' 1 (f + 1) = List.range' 1 f ++ [1 + 1 * f] :=
        List.range'_concat 1 f
      have e2 : 1 + 1 * f = f + 1 := by omega
      rw [e1, e2, List.reverse_concat, List.map_cons]

/-- C10: a Stage at depth `d ≥ 2` is born holding open copies of all of
its ancestors' upstream read ends (`rfd 1 .. rfd (d-1)`), and it never
closes any of them before it exits — its trace closes only its own
upstream pair and (possibly) its own downstream pair.  End-of-stream
detection is unaffected: the inherited table holds no write end other
than the Stage's own upstream write end `wfd d`, which its very first
action closes, leaving the spawner's copy as the single open writer of
channel `d`. -/
theorem deep_stage_inherits_ancestor_reads (N d : Nat) (hd : 2 ≤ d)
    (hst : ¬ (chainStages START_PRIME (candidateRange N)).get? d = none) :
    (∀ i, 1 ≤ i → i < d → rfd i ∈ inheritedSet N d) ∧
    (∀ i, 1 ≤ i → i < d → Ev.closeFd (rfd i) ∉ proc_trace N d) ∧
    wfd d ∈ inheritedSet N d ∧
    (∀ j : Nat, ¬ j = d → wfd j ∉ inheritedSet N d) ∧
    (∃ t, proc_trace N d = Ev.closeFd (wfd d) :: t) := by
  have hchar := inheritedSet_char N d (by omega) hst
  obtain ⟨e, he⟩ : ∃ e, d = e + 1 := ⟨d - 1, by omega⟩
  subst he
  obtain ⟨s, hs⟩ : ∃ s,
      (chainStages START_PRIME (candidateRange N)).get? (e + 1) = some s := by
    cases hx : (chainStages START_PRIME (candidateRange N)).get? (e + 1) with
    | none => exact absurd hx hst
    | some s => exact ⟨s, rfl⟩
  obtain ⟨p, ins⟩ := s
  have htr : proc_trace N (e + 1) = stage_events p (e + 1) ins :=
    proc_trace_succ_some hs
  refine ⟨?_, ?_, ?_, ?_, ?_⟩
  · intro i hi1 hi2
    rw [hchar]
    refine List.mem_cons_of_mem _ (List.mem_cons_of_mem _ ?_)
    rw [List.mem_map]
    refine ⟨i, ?_, rfl⟩
    rw [List.mem_reverse, List.mem_range'_1]
    omega
  · intro i hi1 hi2 hmem
    rw [htr] at hmem
    have hfd : rfd i ∈ closedFds (stage_events p (e + 1) ins) := by
      unfold closedFds
      rw [List.mem_filterMap]
      exact ⟨Ev.closeFd (rfd i), hmem, rfl⟩
    rcases closedFds_stage_events_cases p (e + 1) ins with hc | hc <;>
      rw [hc] at hfd <;>
      · simp only [List.mem_cons, List.not_mem_nil, or_false] at hfd
        revert hfd
        unfold rfd wfd
        intro hfd
        omega
  · rw [hchar]
    exact List.mem_cons_of_mem _ (List.mem_cons_self _ _)
  · intro j hj hmem
    rw [hchar] at hmem
    rcases List.mem_cons.mp hmem with h1 | h1
    · revert h1
      unfold rfd wfd
      omega
    rcases List.mem_cons.mp h1 with h2 | h2
    · revert h2
      unfold wfd
      intro h2
      have : j = e + 1 := by omega
      exact hj this
    · rw [List.mem_map] at h2
      obtain ⟨a, _, ha⟩ := h2
      revert ha
      unfold rfd wfd
      omega
  · exact ⟨_, by rw [htr, stage_events_def]⟩

/-- Witness for C10 at `N = 15`, depth 2 (the Stage of prime 5). -/
theorem deep_stage_inherits_ancestor_reads_witness :
    (2 ≤ 2 ∧
      ¬ (chainStages START_PRIME (candidateRange 15)).get? 2 = none) ∧
    ((∀ i, 1 ≤ i → i < 2 → rfd i ∈ inheritedSet 15 2) ∧
     (∀ i, 1 ≤ i → i < 2 → Ev.closeFd (rfd i) ∉ proc_trace 15 2) ∧
     wfd 2 ∈ inheritedSet 15 2 ∧
     (∀ j : Nat, ¬ j = 2 → wfd j ∉ inheritedSet 15 2) ∧
     (∃ t, proc_trace 15 2 = Ev.closeFd (wfd 2) :: t)) :=
  ⟨⟨by decide, by decide⟩,
    deep_stage_inherits_ancestor_reads 15 2 (by decide) (by decide)⟩

/-! ### Shutdown ordering (C4) -/

theorem run_stage_loop_not_close (n down : Nat) (xs : List Nat)
    (cur : Int × Int) (fd : Int) :
    Ev.closeFd fd ∉ (run_stage_loop n down cur xs).1 := by
  intro hm
  have := run_stage_loop_loopEv n down xs cur _ hm
  simp [loopEv] at this

theorem drive_loop_not_close (xs : List Nat) (cur : Int × Int) (fd : Int) :
    Ev.closeFd fd ∉ (drive_loop cur xs).1 := by
  intro hm
  have := drive_loop_loopEv xs cur _ hm
  simp [loopEv] at this

/-- Every live process's trace is a body followed by exactly
`[wait, exit 0]`, with no `wait` or `exit` in the body. -/
theorem proc_trace_shape (N d : Nat) (h : ¬ proc_trace N d = []) :
    ∃ pre, proc_trace N d = pre ++ [Ev.waitChild, Ev.exitCode 0] ∧
      Ev.waitChild ∉ pre ∧ (∀ k, Ev.exitCode k ∉ pre) := by
  cases d with
  | zero =>
    refine ⟨Ev.print START_PRIME ::
      ((drive_loop (PIPE_INVALID, PIPE_INVALID) (candidateRange N)).1 ++
       [Ev.closeFd (drive_loop (PIPE_INVALID, PIPE_INVALID) (candidateRange N)).2.1,
        Ev.closeFd (drive_loop (PIPE_INVALID, PIPE_INVALID) (candidateRange N)).2.2]),
      ?_, ?_, ?_⟩
    · rw [proc_trace_zero, main_events_def]
      simp [List.append_assoc]
    · intro hm
      rcases List.mem_cons.mp hm with h1 | h1
      · exact Ev.noConfusion h1
      rcases List.mem_append.mp h1 with h2 | h2
      · exact drive_loop_not_wait _ _ h2
      rcases List.mem_cons.mp h2 with h3 | h3
      · exact Ev.noConfusion h3
      rcases List.mem_cons.mp h3 with h4 | h4
      · exact Ev.noConfusion h4
      · simp at h4
    · intro k hm
      rcases List.mem_cons.mp hm with h1 | h1
      · exact Ev.noConfusion h1
      rcases List.mem_append.mp h1 with h2 | h2
      · exact drive_loop_not_exit _ _ k h2
      rcases List.mem_cons.mp h2 with h3 | h3
      · exact Ev.noConfusion h3
      rcases List.mem_cons.mp h3 with h4 | h4
      · exact Ev.noConfusion h4
      · simp at h4
  | succ e =>
    cases hst : (chainStages START_PRIME (candidateRange N)).get? (e + 1) with
    | none => exact absurd (proc_trace_succ_none hst) h
    | some s =>
      obtain ⟨p, ins⟩ := s
      have htr : proc_trace N (e + 1) = stage_events p (e + 1) ins :=
        proc_trace_succ_some hst
      refine ⟨Ev.closeFd (wfd (e + 1)) :: Ev.print p ::
        ((run_stage_loop p (e + 1 + 1) (PIPE_INVALID, PIPE_INVALID) ins).1 ++
          Ev.eof ::
          (close_pipe_if_valid (rfd (e + 1)) ++
           close_pipe_if_valid
             (run_stage_loop p (e + 1 + 1) (PIPE_INVALID, PIPE_INVALID) ins).2.1 ++
           close_pipe_if_valid
             (run_stage_loop p (e + 1 + 1) (PIPE_INVALID, PIPE_INVALID) ins).2.2)),
        ?_, ?_, ?_⟩
      · rw [htr, stage_events_def]
        simp [List.append_assoc]
      · intro hm
        rcases List.mem_cons.mp hm with h1 | h1
        · exact Ev.noConfusion h1
        rcases List.mem_cons.mp h1 with h2 | h2
        · exact Ev.noConfusion h2
        rcases List.mem_append.mp h2 with h3 | h3
        · exact run_stage_loop_not_wait _ _ _ _ h3
        rcases List.mem_cons.mp h3 with h4 | h4
        · exact Ev.noConfusion h4
        rcases List.mem_append.mp h4 with h5 | h5
        · rcases List.mem_append.mp h5 with h6 | h6
          · exact Ev.noConfusion (close_pipe_if_valid_mem h6)
          · exact Ev.noConfusion (close_pipe_if_valid_mem h6)
        · exact Ev.noConfusion (close_pipe_if_valid_mem h5)
      · intro k hm
        rcases List.mem_cons.mp hm with h1 | h1
        · exact Ev.noConfusion h1
        rcases List.mem_cons.mp h1 with h2 | h2
        · exact Ev.noConfusion h2
        rcases List.mem_append.mp h2 with h3 | h3
        · exact run_stage_loop_not_exit _ _ _ _ k h3
        rcases List.mem_cons.mp h3 with h4 | h4
        · exact Ev.noConfusion h4
        rcases List.mem_append.mp h4 with h5 | h5
        · rcases List.mem_append.mp h5 with h6 | h6
          · exact Ev.noConfusion (close_pipe_if_valid_mem h6)
          · exact Ev.noConfusion (close_pipe_if_valid_mem h6)
        · exact Ev.noConfusion (close_pipe_if_valid_mem h5)

/-- Index of a live process's `exit` event: the last slot of its trace. -/
def exitIdx (N d : Nat) : Nat := (proc_trace N d).length - 1

/-- Index of a live process's `wait` return: the next-to-last slot. -/
def waitIdx (N d : Nat) : Nat := (proc_trace N d).length - 2

theorem proc_trace_wait_exit (N d : Nat) (h : ¬ proc_trace N d = []) :
    (proc_trace N d).get? (waitIdx N d) = some Ev.waitChild ∧
    (proc_trace N d).get? (exitIdx N d) = some (Ev.exitCode 0) ∧
    waitIdx N d < exitIdx N d ∧ exitIdx N d < (proc_trace N d).length := by
  obtain ⟨pre, heq, _, _⟩ := proc_trace_shape N d h
  have hlen : (proc_trace N d).length = pre.length + 2 := by
    rw [heq, List.length_append]
    rfl
  have hw : waitIdx N d = pre.length := by
    unfold waitIdx
    omega
  have he : exitIdx N d = pre.length + 1 := by
    unfold exitIdx
    omega
  refine ⟨?_, ?_, by omega, by omega⟩
  · rw [hw, heq, List.get?_append_right (Nat.le_refl _)]
    simp
  · rw [he, heq, List.get?_append_right (by omega)]
    have : pre.length + 1 - pre.length = 1 := by omega
    rw [this]
    rfl

/-- Cross-process happens-before order of the run with bound `N`.  An
event is a pair (spawn depth, index in that process's trace).  The
generators: program order inside a process; the kernel delivers
end-of-stream to the Stage at depth `d + 1` only after its upstream
channel's last open write end — the spawner's copy, once the Stage's own
birth close has retired its inherited copy (see
`deep_stage_inherits_ancestor_reads`) — is closed; and `wait(0)` in the
spawner returns only after the spawned Stage has exited. -/
inductive HB (N : Nat) : Nat × Nat → Nat × Nat → Prop where
  | po {d i j : Nat} : i < j → j < (proc_trace N d).length →
      HB N (d, i) (d, j)
  | closeWriteEof {d i j : Nat} :
      (proc_trace N d).get? i = some (Ev.closeFd (wfd (d + 1))) →
      (proc_trace N (d + 1)).get? j = some Ev.eof →
      HB N (d, i) (d + 1, j)
  | exitWait {d i j : Nat} :
      (proc_trace N (d + 1)).get? i = some (Ev.exitCode 0) →
      (proc_trace N d).get? j = some Ev.waitChild →
      HB N (d + 1, i) (d, j)
  | trans {a b c : Nat × Nat} : HB N a b → HB N b c → HB N a c

theorem chainStages_get_ne_none {N k d : Nat}
    (hk : (chainStages START_PRIME (candidateRange N)).length = k + 1)
    (hd : d ≤ k) :
    ¬ (chainStages START_PRIME (candidateRange N)).get? d = none := by
  rw [List.get?_eq_none, hk]
  omega

theorem proc_trace_ne_nil {N d : Nat}
    (h : ¬ (chainStages START_PRIME (candidateRange N)).get? d = none) :
    ¬ proc_trace N d = [] := by
  cases d with
  | zero =>
    rw [proc_trace_zero, main_events_def]
    simp
  | succ e =>
    cases hx : (chainStages START_PRIME (candidateRange N)).get? (e + 1) with
    | none => exact absurd hx h
    | some s =>
      rw [proc_trace_succ_some hx, stage_events_def]
      simp

/-- C4: shutdown is bottom-up.  Per owner: a Stage's trace is its birth
close and prime print, then a body containing no `close` and no `wait`,
then the end-of-stream marker, then the teardown — so the upstream read
end, the downstream cursor's ends and the join all come only after
upstream exhaustion; likewise the driver closes and waits only after its
candidate loop is exhausted.  Across owners (`k` = number of Stages): the
exit of any deeper Stage happens-before the exit of every shallower
owner, so the deepest Stage terminates first, and the driver's final
`wait` return happens after every Stage's exit, so it unblocks last. -/
theorem shutdown_bottom_up (N k : Nat)
    (hk : (chainStages START_PRIME (candidateRange N)).length = k + 1) :
    (∀ (n c : Nat) (xs : List Nat), ∃ body td,
      stage_events n c xs =
        Ev.closeFd (wfd c) :: Ev.print n :: (body ++ Ev.eof :: td) ∧
      (∀ fd, Ev.closeFd fd ∉ body) ∧ Ev.waitChild ∉ body) ∧
    (∃ body cl1 cl2, main_events N = Ev.print START_PRIME ::
        (body ++ [Ev.closeFd cl1, Ev.closeFd cl2, Ev.waitChild,
          Ev.exitCode 0]) ∧
      (∀ fd, Ev.closeFd fd ∉ body) ∧ Ev.waitChild ∉ body) ∧
    (∀ d e, d < e → e ≤ k → HB N (e, exitIdx N e) (d, exitIdx N d)) ∧
    (∀ d, 1 ≤ d → d ≤ k → HB N (d, exitIdx N d) (0, waitIdx N 0)) := by
  have live : ∀ d, d ≤ k → ¬ proc_trace N d = [] := fun d hd =>
    proc_trace_ne_nil (chainStages_get_ne_none hk hd)
  have step : ∀ d, d + 1 ≤ k →
      HB N (d + 1, exitIdx N (d + 1)) (d, exitIdx N d) := by
    intro d hd
    have h1 := proc_trace_wait_exit N (d + 1) (live (d + 1) hd)
    have h0 := proc_trace_wait_exit N d (live d (by omega))
    exact HB.trans (HB.exitWait h1.2.1 h0.1) (HB.po h0.2.2.1 h0.2.2.2)
  have chain : ∀ e d, d < e → e ≤ k →
      HB N (e, exitIdx N e) (d, exitIdx N d) := by
    intro e
    induction e with
    | zero =>
      intro d hd _
      omega
    | succ f ihe =>
      intro d hd hke
      rcases Nat.lt_or_ge d f with h | h
      · exact HB.trans (step f hke) (ihe d h (by omega))
      · have hdf : d = f := by omega
        subst hdf
        exact step d hke
  have edge1 : 1 ≤ k → HB N (1, exitIdx N 1) (0, waitIdx N 0) := by
    intro h1
    have ht1 := proc_trace_wait_exit N 1 (live 1 h1)
    have ht0 := proc_trace_wait_exit N 0 (live 0 (by omega))
    exact HB.exitWait ht1.2.1 ht0.1
  refine ⟨?_, ?_, fun d e hde hek => chain e d hde hek, ?_⟩
  · intro n c xs
    exact ⟨(run_stage_loop n (c + 1) (PIPE_INVALID, PIPE_INVALID) xs).1, _,
      stage_events_def n c xs,
      fun fd => run_stage_loop_not_close n (c + 1) xs _ fd,
      run_stage_loop_not_wait n (c + 1) xs _⟩
  · exact ⟨(drive_loop (PIPE_INVALID, PIPE_INVALID) (candidateRange N)).1,
      _, _, main_events_def N,
      fun fd => drive_loop_not_close _ _ fd,
      drive_loop_not_wait _ _⟩
  · intro d h1 hdk
    rcases Nat.lt_or_ge 1 d with h | h
    · exact HB.trans (chain d 1 h hdk) (edge1 (by omega))
    · have hd1 : d = 1 := by omega
      subst hd1
      exact edge1 hdk

/-- Witness for C4 at `N = 10` (driver plus three Stages: 3, 5, 7). -/
theorem shutdown_bottom_up_witness :
    (chainStages START_PRIME (candidateRange 10)).length = 3 + 1 ∧
    ((∀ (n c : Nat) (xs : List Nat), ∃ body td,
      stage_events n c xs =
        Ev.closeFd (wfd c) :: Ev.print n :: (body ++ Ev.eof :: td) ∧
      (∀ fd, Ev.closeFd fd ∉ body) ∧ Ev.waitChild ∉ body) ∧
    (∃ body cl1 cl2, main_events 10 = Ev.print START_PRIME ::
        (body ++ [Ev.closeFd cl1, Ev.closeFd cl2, Ev.waitChild,
          Ev.exitCode 0]) ∧
      (∀ fd, Ev.closeFd fd ∉ body) ∧ Ev.waitChild ∉ body) ∧
    (∀ d e, d < e → e ≤ 3 → HB 10 (e, exitIdx 10 e) (d, exitIdx 10 d)) ∧
    (∀ d, 1 ≤ d → d ≤ 3 → HB 10 (d, exitIdx 10 d) (0, waitIdx 10 0))) :=
  ⟨by decide, shutdown_bottom_up 10 3 (by decide)⟩

end PrimesPipe
